import Mathlib

/-
Shallow embedding of scripts/generate_sensor_power_table.py.

Strings are modelled as Lean String / List Char; Python's str.strip and the
two regular expressions of the script are modelled character by character
(ASCII character classes: the inputs of the script are ASCII).  Python floats
are modelled as exact unnormalised rationals (integer numerator, positive
natural denominator): the script only adds parsed decimal literals, takes
absolute values and compares against zero, and all parsed literals are exact
decimals, so rounding behaviour of binary64 is irrelevant here.  Fallible
code returns Except; the error messages of the script are modelled
structurally (each ValueError f-string becomes a constructor holding the data
interpolated into the message).
-/

set_option maxRecDepth 40000

namespace Rib

/-- Whitespace class of Python's str.strip and of the regex class backslash-s,
restricted to ASCII. -/
def pyWS (c : Char) : Bool :=
  c = ' ' || c = '\t' || c = '\n' || c = '\r' || c = '\x0b' || c = '\x0c'

/-- Python str.strip() on a character list. -/
def stripL (cs : List Char) : List Char :=
  ((cs.dropWhile pyWS).reverse.dropWhile pyWS).reverse

/-- Python str.strip() on a String. -/
def pyStrip (s : String) : String :=
  String.mk (stripL s.data)

/-- Does the pattern (first argument) begin the list (second argument)? -/
def startsWithL : List Char → List Char → Bool
  | [], _ => true
  | _ :: _, [] => false
  | a :: as, b :: bs => a = b && startsWithL as bs

/-- Python "pat in s" substring test. -/
def containsSub (pat : List Char) : List Char → Bool
  | [] => startsWithL pat []
  | c :: rest => startsWithL pat (c :: rest) || containsSub pat rest

/-- Value of a list of decimal digits, most significant first. -/
def digitsToNat (ds : List Char) : Nat :=
  ds.foldl (fun n c => n * 10 + (c.toNat - '0'.toNat)) 0

/-- Python "s.split(',')": split at every comma, empty pieces kept,
and the empty string yields one empty piece. -/
def splitComma : List Char → List (List Char)
  | [] => [[]]
  | ',' :: rest => [] :: splitComma rest
  | c :: rest =>
    match splitComma rest with
    | h :: t => (c :: h) :: t
    | [] => [[c]]

/-- Exact value of a parsed numeric literal: an unnormalised rational.
The denominator is a positive power of ten by construction. -/
structure PyFloat where
  num : Int
  den : Nat
deriving DecidableEq, Repr

/-- Float addition of the script (exact on the decimals it parses). -/
def pfAdd (a b : PyFloat) : PyFloat :=
  ⟨a.num * (b.den : Int) + b.num * (a.den : Int), a.den * b.den⟩

/-- Python abs() on a float. -/
def pfAbs (a : PyFloat) : PyFloat :=
  ⟨if a.num < 0 then -a.num else a.num, a.den⟩

/-- Python "x >= 0" on a float (denominators are positive). -/
def pfNonneg (a : PyFloat) : Bool :=
  0 ≤ a.num

/-- Negation, for the sign of a literal. -/
def pfNeg (a : PyFloat) : PyFloat :=
  ⟨-a.num, a.den⟩

/-- Scale a mantissa by ten to the signed exponent of a literal. -/
def pfApplyExp (m : PyFloat) (neg : Bool) (e : Nat) : PyFloat :=
  if neg then ⟨m.num, m.den * 10 ^ e⟩ else ⟨m.num * (10 ^ e : Nat), m.den⟩

/-- Mantissa value of digits d1 before and d2 after the decimal point. -/
def pfOfDigits (d1 d2 : List Char) : PyFloat :=
  ⟨(digitsToNat d1 * 10 ^ d2.length + digitsToNat d2 : Nat), 10 ^ d2.length⟩

/-
Model of WGSL_FLOAT_RE = [-+]?\d*\.?\d+(?:[eE][-+]?\d+)? and of re.search
with it.  The pattern is effectively deterministic: the model commits to the
maximal digit runs, which agrees with the backtracking semantics of the
regex (see the mantissa cases: a trailing dot without following digits is
not consumed).
-/

/-- Digit run at the head of a fragment, with the optional decimal point and
its following digits, and the rest; a dot without a following digit is not
consumed (the regex backtracks out of the optional dot). -/
def matchMantissa (cs : List Char) : Option (PyFloat × List Char) :=
  match cs.dropWhile Char.isDigit with
  | '.' :: r2 =>
    if (r2.takeWhile Char.isDigit).isEmpty then
      if (cs.takeWhile Char.isDigit).isEmpty then none
      else some (pfOfDigits (cs.takeWhile Char.isDigit) [], '.' :: r2)
    else some (pfOfDigits (cs.takeWhile Char.isDigit) (r2.takeWhile Char.isDigit),
      r2.dropWhile Char.isDigit)
  | r1 =>
    if (cs.takeWhile Char.isDigit).isEmpty then none
    else some (pfOfDigits (cs.takeWhile Char.isDigit) [], r1)

/-- Exponent digits after [eE] and an optional sign; on missing digits the
whole optional exponent group is not consumed. -/
def matchExpDigits (m : PyFloat) (orig : List Char) (neg : Bool) (t : List Char) :
    PyFloat × List Char :=
  if (t.takeWhile Char.isDigit).isEmpty then (m, orig)
  else (pfApplyExp m neg (digitsToNat (t.takeWhile Char.isDigit)), t.dropWhile Char.isDigit)

/-- Optional exponent part ([eE][-+]?\d+)? applied to a mantissa. -/
def matchExpPart (m : PyFloat) (rest : List Char) : PyFloat × List Char :=
  match rest with
  | 'e' :: r4 =>
    (match r4 with
     | '+' :: t => matchExpDigits m rest false t
     | '-' :: t => matchExpDigits m rest true t
     | t => matchExpDigits m rest false t)
  | 'E' :: r4 =>
    (match r4 with
     | '+' :: t => matchExpDigits m rest false t
     | '-' :: t => matchExpDigits m rest true t
     | t => matchExpDigits m rest false t)
  | _ => (m, rest)

/-- Attempt of the float regex anchored at the head of the fragment:
optional sign, then mantissa, then optional exponent.  The regex engine's
retry of a failed sign branch without the sign is omitted: a fragment
starting with a sign character can never match the signless mantissa, so
that retry always fails. -/
def matchAt (cs : List Char) : Option (PyFloat × List Char) :=
  match cs with
  | '+' :: r =>
    (match matchMantissa r with
     | some (m, rest) => some (matchExpPart m rest)
     | none => none)
  | '-' :: r =>
    (match matchMantissa r with
     | some (m, rest) => some (matchExpPart (pfNeg m) rest)
     | none => none)
  | _ =>
    (match matchMantissa cs with
     | some (m, rest) => some (matchExpPart m rest)
     | none => none)

/-- Model of WGSL_FLOAT_RE.search: leftmost successful anchored attempt. -/
def searchFloat : List Char → Option PyFloat
  | [] => none
  | c :: rest =>
    match matchAt (c :: rest) with
    | some (v, _) => some v
    | none => searchFloat rest

/-
Errors raised by the script.  Each ValueError of the Python source becomes a
constructor holding exactly the data interpolated into its message:
  parseError p          "Could not parse float from vec4 component: p"
  badGroupCount i l     "Unexpected AMINO_DATA row format for idx=i: l"
  badComponentCount i g "Unexpected vec4 component count for idx=i: g"
  badModifierInt s      ValueError of int(s) in generate_table
  missingColumn c       KeyError of r[c] in generate_table
-/
inductive TErr where
  | parseError (fragment : String)
  | badGroupCount (idx : Nat) (line : String)
  | badComponentCount (idx : Nat) (grp : String)
  | badModifierInt (cell : String)
  | missingColumn (col : String)
deriving DecidableEq, Repr

/-- Which record index, if any, is interpolated into the error's message. -/
def errIdxInMessage : TErr → Option Nat
  | .badGroupCount i _ => some i
  | .badComponentCount i _ => some i
  | _ => none

/-- One parsed shader-table record (dataclass Param1Entry). -/
structure Param1Entry where
  idx : Nat
  code : String
  name : String
  param1 : PyFloat
deriving DecidableEq, Repr

/-- The Float Extractor as _parse_vec4_components applies it to one
comma-separated component: strip, regex search, ValueError on no match. -/
def floatExtract (p : List Char) : Except TErr PyFloat :=
  let q := stripL p
  match searchFloat q with
  | some v => .ok v
  | none => .error (.parseError (String.mk q))

/-- Loop of _parse_vec4_components: extract one float per piece, raising at
the first piece with no numeric literal. -/
def extractFloats : List (List Char) → Except TErr (List PyFloat)
  | [] => .ok []
  | p :: rest =>
    match floatExtract p with
    | .error e => .error e
    | .ok v =>
      match extractFloats rest with
      | .error e => .error e
      | .ok vs => .ok (v :: vs)

/-- Model of _parse_vec4_components: split on commas, extract one float from
each piece. -/
def parseVec4Components (cs : List Char) : Except TErr (List PyFloat) :=
  extractFloats (splitComma cs)

/-- Pattern of re.findall(r"vec4<f32>\(([^)]*)\)", ...). -/
def vec4Pat : List Char := "vec4<f32>(".data

/-- Fuel-driven scan for findall: at each position, the literal opener, a run
of non-parenthesis characters, and a closing parenthesis; matches do not
overlap, a failed position advances by one character.  The fuel only bounds
the recursion; every step strictly shortens the list, so fuel equal to the
list length is always enough. -/
def findVec4Aux : Nat → List Char → List (List Char)
  | 0, _ => []
  | _, [] => []
  | fuel + 1, c :: rest =>
    if startsWithL vec4Pat (c :: rest) then
      let after := (c :: rest).drop vec4Pat.length
      match after.dropWhile (fun d => !(d = ')')) with
      | ')' :: tail => after.takeWhile (fun d => !(d = ')')) :: findVec4Aux fuel tail
      | _ => findVec4Aux fuel rest
    else findVec4Aux fuel rest

/-- All captured groups of re.findall(r"vec4<f32>\(([^)]*)\)", s). -/
def findVec4Groups (cs : List Char) : List (List Char) :=
  findVec4Aux cs.length cs

/-- Lines 71-80 of the script: given a matched header's index and its found
data line, check the group count, parse the fourth group, check its
component count, and take the fourth component as param1. -/
def extractParam1 (idx : Nat) (dataLine : String) : Except TErr PyFloat :=
  let vec4s := findVec4Groups dataLine.data
  if vec4s.length < 4 then .error (.badGroupCount idx dataLine)
  else
    match parseVec4Components (vec4s.getD 3 []) with
    | .error e => .error e
    | .ok d3 =>
      if d3.length ≠ 4 then .error (.badComponentCount idx (String.mk (vec4s.getD 3 [])))
      else .ok (d3.getD 3 ⟨0, 1⟩)

/-- Result of header_re: record index, one-letter code, display name. -/
structure Header where
  idx : Nat
  code : String
  name : String
deriving DecidableEq, Repr

/-- Model of header_re.match with
header_re = ^\s*//\s*(\d+)\s+([A-Z])\s+-\s+(.+?)\s*$   (ASCII classes).
The adjacent character classes of the pattern are disjoint, so committing to
maximal runs is faithful; the lazy tail group captures everything after the
hyphen's whitespace with trailing whitespace stripped, must be nonempty, and
cannot span a newline (the dot of the pattern does not match one). -/
def headerMatch (line : String) : Option Header :=
  let cs0 := (line.data).dropWhile pyWS
  match cs0 with
  | '/' :: '/' :: cs1 =>
    let cs2 := cs1.dropWhile pyWS
    let ds := cs2.takeWhile Char.isDigit
    let cs3 := cs2.dropWhile Char.isDigit
    if ds.isEmpty then none
    else
      let ws1 := cs3.takeWhile pyWS
      let cs4 := cs3.dropWhile pyWS
      if ws1.isEmpty then none
      else
        match cs4 with
        | c :: cs5 =>
          if 'A' ≤ c && c ≤ 'Z' then
            let ws2 := cs5.takeWhile pyWS
            let cs6 := cs5.dropWhile pyWS
            if ws2.isEmpty then none
            else
              match cs6 with
              | '-' :: cs7 =>
                (match cs7 with
                 | w :: _ =>
                   if pyWS w then
                     let nm := (((cs7.dropWhile pyWS).reverse.dropWhile pyWS).reverse)
                     if nm.isEmpty || nm.contains '\n' then none
                     else some ⟨digitsToNat ds, String.mk [c], String.mk nm⟩
                   else none
                 | [] => none)
              | _ => none
          else none
        | [] => none
  | _ => none

/-- Forward scan of lines 52-65 over the lines after a matched header: skip
blank lines, stop with nothing at the next comment line, stop with the
stripped line when it contains the array literal marker. -/
def scanData : List String → Option String
  | [] => none
  | l :: rest =>
    let s := stripL l.data
    if s.isEmpty then scanData rest
    else if startsWithL "//".data s then none
    else if containsSub "array<vec4<f32>,6>(".data s then some (String.mk s)
    else scanData rest

/-- Python dict lookup (keys are unique in every dict the script builds). -/
def alookup {κ β : Type} [DecidableEq κ] (k : κ) : List (κ × β) → Option β
  | [] => none
  | (k2, v) :: rest => if k2 = k then some v else alookup k rest

/-- Python-dict assignment d[k] = v: overwrite in place, else append. -/
def pyDictInsert {κ β : Type} [DecidableEq κ] (d : List (κ × β)) (k : κ) (v : β) :
    List (κ × β) :=
  if (alookup k d).isSome then d.map (fun p => if p.1 = k then (k, v) else p)
  else d ++ [(k, v)]

/-- Main scan of parse_shared_wgsl_param1 (the while loop over i), written
over the suffix of lines starting at position i: whether the line at i is no
header, or an abandoned header, or a consumed one, the loop continues at
i + 1, that is, on the tail of the suffix. -/
def parseLoopRec : List String → List (Nat × Param1Entry) → Except TErr (List (Nat × Param1Entry))
  | [], entries => .ok entries
  | l :: rest, entries =>
    match headerMatch l with
    | none => parseLoopRec rest entries
    | some hd =>
      match scanData rest with
      | none => parseLoopRec rest entries
      | some dataLine =>
        match extractParam1 hd.idx dataLine with
        | .error e => .error e
        | .ok v =>
          parseLoopRec rest (pyDictInsert entries hd.idx ⟨hd.idx, hd.code, hd.name, v⟩)

/-- Model of parse_shared_wgsl_param1 applied to the file's lines. -/
def parseSharedWgslParam1 (lines : List String) : Except TErr (List (Nat × Param1Entry)) :=
  parseLoopRec lines []

/-- The fixed catalog SENSOR_NAME_TO_TYPE_ID of the script. -/
def SENSOR_NAME_TO_TYPE_ID : List (String × Nat) :=
  [("Alpha Sensor", 22),
   ("Beta Sensor", 23),
   ("Energy Sensor", 24),
   ("Agent Alpha Sensor", 34),
   ("Agent Beta Sensor", 35),
   ("Trail Energy Sensor (alpha)", 37),
   ("Trail Energy Sensor (beta)", 37),
   ("Alpha Magnitude Sensor", 38),
   ("Alpha Magnitude Sensor (var)", 39),
   ("Beta Magnitude Sensor", 40),
   ("Beta Magnitude Sensor (var)", 41)]

/-- Model of _sensor_kind_from_name: the name itself when it is a key of the
catalog, None otherwise. -/
def sensorKindFromName (organName : String) : Option String :=
  if (alookup organName SENSOR_NAME_TO_TYPE_ID).isSome then some organName else none

/-- A Python value stored in an output-row dict: a float, an int, a string,
or None.  The heterogeneous dict values of the script force a sum type. -/
inductive Cell where
  | num (q : PyFloat)
  | int (n : Int)
  | str (s : String)
  | pyNone
deriving DecidableEq, Repr

/-- Lift an optional float lookup into a dict value. -/
def cellOfOpt : Option PyFloat → Cell
  | some q => .num q
  | none => .pyNone

/-- One output-row dict of generate_table, with its 11 fixed keys as fields. -/
structure Row where
  sensor_kind : String
  organ_type_id : Nat
  promoter_code : String
  promoter_param1 : Cell
  modifier_index : Cell
  modifier_code : String
  modifier_param1 : Cell
  combined_param1 : Cell
  gain_abs : Cell
  polarity : Cell
  notes : String
deriving DecidableEq, Repr

/-- Test "organ_type_id in (22, 23, 38, 39, 40, 41)" of line 142. -/
def usesParam1Gain (n : Nat) : Bool :=
  n = 22 || n = 23 || n = 38 || n = 39 || n = 40 || n = 41

/-- Notes string of the allow-listed sensors. -/
def envDyeNote : String := "env_dye_sensor (gain=abs(p+m), sign=sign(p+m))"

/-- Notes string of the other sensors. -/
def nonParam1Note : String :=
  "non_param1_sensor (gain not derived from promoter/modifier param1 in shader)"

/-- Row built by lines 137-170 for one classified (CSV row, promoter column)
pair: look both codes up in the amino dict, derive the three gain fields when
the organ type is allow-listed and both lookups hit, and pick the note from
allow-list membership alone. -/
def mkJoinRow (amino : List (String × PyFloat)) (modifierIdx : Int)
    (modifierCode : String) (promoterCode : String) (kind : String) : Row :=
  let organTypeId := (alookup kind SENSOR_NAME_TO_TYPE_ID).getD 0
  let promoterP1 := alookup promoterCode amino
  let modifierP1 := alookup modifierCode amino
  let combOpt : Option PyFloat :=
    if usesParam1Gain organTypeId then
      match promoterP1, modifierP1 with
      | some p, some m => some (pfAdd p m)
      | _, _ => none
    else none
  ⟨kind, organTypeId, promoterCode, cellOfOpt promoterP1, .int modifierIdx,
   modifierCode, cellOfOpt modifierP1, cellOfOpt combOpt,
   (match combOpt with
    | some c => .num (pfAbs c)
    | none => .pyNone),
   (match combOpt with
    | some c => .int (if pfNonneg c then 1 else -1)
    | none => .pyNone),
   if usesParam1Gain organTypeId then envDyeNote else nonParam1Note⟩

/-- Body of the inner promoter loop for one (CSV row, promoter column) pair:
classify the cell's organ name, and on success append the joined row. -/
def processPromoter (amino : List (String × PyFloat)) (modifierIdx : Int)
    (modifierCode : String) (promoterCode : String) (organName : String) : Option Row :=
  (sensorKindFromName organName).map (mkJoinRow amino modifierIdx modifierCode promoterCode)

/-- The fixed promoters dict: column name to promoter code, in the
insertion order the script iterates. -/
def promoters : List (String × String) :=
  [("V_Valine", "V"), ("M_Methionine", "M"), ("H_Histidine", "H"), ("Q_Glutamine", "Q")]

/-- One CSV row of the organ table as DictReader yields it: column name to
cell text.  A column missing from the CSV is an absent key. -/
def CsvRow : Type := List (String × String)

/-- Digits of a Python int literal with single underscores allowed between
digits (int("1_0") is 10), accumulating the value. -/
def pyIntDigitsAux : Nat → List Char → Option Nat
  | acc, [] => some acc
  | acc, '_' :: c :: rest =>
    if c.isDigit then pyIntDigitsAux (acc * 10 + (c.toNat - '0'.toNat)) rest else none
  | acc, c :: rest =>
    if c.isDigit then pyIntDigitsAux (acc * 10 + (c.toNat - '0'.toNat)) rest else none

/-- Model of Python int(s) on an already-stripped ASCII string: optional
sign, then at least one digit, underscores only between digits. -/
def pyInt (s : String) : Option Int :=
  let core : List Char → Option Nat := fun cs =>
    match cs with
    | c :: rest => if c.isDigit then pyIntDigitsAux (c.toNat - '0'.toNat) rest else none
    | [] => none
  match s.data with
  | '+' :: rest => (core rest).map fun n => (n : Int)
  | '-' :: rest => (core rest).map fun n => -(n : Int)
  | cs => (core cs).map fun n => (n : Int)

/-- Lines 124-133 and 152-170 for one CSV row: read and parse the Modifier
cell, read the Modifier_AA cell, then run the promoter loop; each step can
abort the whole run. -/
def processRow (amino : List (String × PyFloat)) (r : CsvRow) : Except TErr (List Row) :=
  match alookup "Modifier" r with
  | none => .error (.missingColumn "Modifier")
  | some mcell =>
    match pyInt (pyStrip mcell) with
    | none => .error (.badModifierInt (pyStrip mcell))
    | some midx =>
      match alookup "Modifier_AA" r with
      | none => .error (.missingColumn "Modifier_AA")
      | some macell =>
        .ok (promoters.filterMap fun pc =>
          processPromoter amino midx (pyStrip macell) pc.2
            (pyStrip ((alookup pc.1 r).getD "")))

/-- The CSV loop: rows accumulate in file order, the first failing row aborts
the run. -/
def processRows (amino : List (String × PyFloat)) : List CsvRow → Except TErr (List Row)
  | [] => .ok []
  | r :: rest =>
    match processRow amino r with
    | .error e => .error e
    | .ok l =>
      match processRows amino rest with
      | .error e => .error e
      | .ok ls => .ok (l ++ ls)

/-- Line 111: the dict comprehension over param1.values() keeping indices 0
to 19 (indices are naturals here, so only the upper bound is tested), keyed
by code, later entries overwriting earlier ones. -/
def buildAmino (vs : List Param1Entry) : List (String × PyFloat) :=
  vs.foldl (fun acc e => if e.idx ≤ 19 then pyDictInsert acc e.code e.param1 else acc) []

/-- The synthetic Energy Sensor row of lines 175-189. -/
def energyRow : Row :=
  ⟨"Energy Sensor", 24, "", .str "", .str "", "", .str "", .str "", .str "", .str "",
   "energy_sensor (uses energy->signal mapping; not promoter/modifier param1 gain)"⟩

/-- Python string comparison: lexicographic on code points. -/
def lexLt : List Char → List Char → Bool
  | [], [] => false
  | [], _ :: _ => true
  | _ :: _, [] => false
  | a :: as, b :: bs =>
    if a.toNat < b.toNat then true
    else if a.toNat = b.toNat then lexLt as bs
    else false

/-- Third component of sort_key: the modifier index as an int, or the 999
sentinel when the field does not hold an int. -/
def modIdxKey : Cell → Int
  | .int n => n
  | _ => 999

/-- The sort_key of lines 192-197 (promoter_code is already a string in
every row the script builds, so str() is the identity on it). -/
def sortKey (r : Row) : String × String × Int :=
  (r.sensor_kind, r.promoter_code, modIdxKey r.modifier_index)

/-- Non-strict comparison of sort keys: Python tuple comparison,
lexicographic with code-point string order. -/
def rowLE (a b : Row) : Bool :=
  let ka := sortKey a
  let kb := sortKey b
  if ka.1 = kb.1 then
    (if ka.2.1 = kb.2.1 then ka.2.2 ≤ kb.2.2 else lexLt ka.2.1.data kb.2.1.data)
  else lexLt ka.1.data kb.1.data

/-- Stable insertion into a sorted list: an element goes before the first
strictly larger one, hence after nothing equal that was inserted later. -/
def insertRow (x : Row) : List Row → List Row
  | [] => [x]
  | y :: ys => if rowLE x y then x :: y :: ys else y :: insertRow x ys

/-- Model of rows.sort(key=sort_key): a stable sort by rowLE; list.sort is
stable, and stable sorts by the same key agree extensionally. -/
def sortRows : List Row → List Row
  | [] => []
  | x :: xs => insertRow x (sortRows xs)

/-- Model of generate_table: parse the shader table, build the amino dict,
join every CSV row, append the synthetic Energy Sensor row when index 24 was
parsed, and sort. -/
def generate_table (shaderLines : List String) (csvRows : List CsvRow) :
    Except TErr (List Row) :=
  match parseLoopRec shaderLines [] with
  | .error e => .error e
  | .ok param1 =>
    let amino := buildAmino (param1.map Prod.snd)
    match processRows amino csvRows with
    | .error e => .error e
    | .ok rows =>
      let rows2 := if (alookup 24 param1).isSome then rows ++ [energyRow] else rows
      .ok (sortRows rows2)

/-
Claim-side definitions.  specParse below is the one definition written from
the spec's words rather than from the source (for the refinement content of
the Float Extractor claim): "a numeric literal (optionally signed,
optionally with a decimal point, optionally in exponential notation)",
recognised on a whole fragment, with its exact decimal value.
-/

/-- Digits ending a spec-side exponent: at least one digit consuming the
whole rest of the fragment. -/
def specExpDigits (m : PyFloat) (neg : Bool) (t : List Char) : Option PyFloat :=
  if (t.takeWhile Char.isDigit).isEmpty || !(t.dropWhile Char.isDigit).isEmpty then none
  else some (pfApplyExp m neg (digitsToNat (t.takeWhile Char.isDigit)))

/-- Exponent tail of a spec-side numeric literal: nothing, or e/E, an
optional sign and at least one digit, consuming the whole rest. -/
def specExpTail (m : PyFloat) (cs : List Char) : Option PyFloat :=
  match cs with
  | [] => some m
  | e :: r =>
    if e = 'e' || e = 'E' then
      match r with
      | '+' :: t => specExpDigits m false t
      | '-' :: t => specExpDigits m true t
      | t => specExpDigits m false t
    else none

/-- Unsigned spec-side numeric literal: digits with an optional decimal
point (digits required after the point), then the optional exponent. -/
def specUnsigned (cs : List Char) : Option PyFloat :=
  match cs.dropWhile Char.isDigit with
  | '.' :: r2 =>
    if (r2.takeWhile Char.isDigit).isEmpty then none
    else specExpTail (pfOfDigits (cs.takeWhile Char.isDigit) (r2.takeWhile Char.isDigit))
      (r2.dropWhile Char.isDigit)
  | r1 =>
    if (cs.takeWhile Char.isDigit).isEmpty then none
    else specExpTail (pfOfDigits (cs.takeWhile Char.isDigit) []) r1

/-- Spec-side numeric literal: optionally signed, and its exact value. -/
def specParse (cs : List Char) : Option PyFloat :=
  match cs with
  | '+' :: r => specUnsigned r
  | '-' :: r => (specUnsigned r).map pfNeg
  | _ => specUnsigned cs

/-- A fragment character that cannot start or continue a numeric literal;
surrounding punctuation in the sense of the Float Extractor contract. -/
def safeBefore (c : Char) : Bool :=
  !(c.isDigit || c = '.' || c = '+' || c = '-')

/-- A first character after a literal that cannot extend the match. -/
def safeAfterHead : List Char → Bool
  | [] => true
  | c :: _ => !(c.isDigit || c = '.' || c = 'e' || c = 'E')

/-- Count of the (CSV row, promoter column) pairs whose organ name
classifies to a sensor kind. -/
def classifiedCount (csvRows : List CsvRow) : Nat :=
  (csvRows.map fun r =>
    (promoters.filter fun pc =>
      (sensorKindFromName (pyStrip ((alookup pc.1 r).getD ""))).isSome).length).sum

/-- A row with sensor kind "Energy Sensor" and every join field empty: the
shape of the synthetic row. -/
def isSyntheticEnergy (r : Row) : Bool :=
  r.sensor_kind = "Energy Sensor" && r.promoter_code = "" &&
  r.promoter_param1 = .str "" && r.modifier_index = .str "" &&
  r.modifier_code = "" && r.modifier_param1 = .str "" &&
  r.combined_param1 = .str "" && r.gain_abs = .str "" && r.polarity = .str ""

/-- Does a cell hold a Python int? isinstance(-, int) of sort_key. -/
def isIntCell : Cell → Bool
  | .int _ => true
  | _ => false

/-
Order lemmas for the sort.
-/

theorem lexLt_irrefl : ∀ x : List Char, lexLt x x = false := by
  intro x
  induction x with
  | nil => rfl
  | cons a as ih => simp [lexLt, ih]

theorem lexLt_trans : ∀ {x y z : List Char},
    lexLt x y = true → lexLt y z = true → lexLt x z = true := by
  intro x
  induction x with
  | nil =>
    intro y z hxy hyz
    cases y with
    | nil => simp [lexLt] at hxy
    | cons b bs =>
      cases z with
      | nil => simp [lexLt] at hyz
      | cons c cs => simp [lexLt]
  | cons a as ih =>
    intro y z hxy hyz
    cases y with
    | nil => simp [lexLt] at hxy
    | cons b bs =>
      cases z with
      | nil => simp [lexLt] at hyz
      | cons c cs =>
        simp only [lexLt] at hxy hyz ⊢
        by_cases hab : a.toNat < b.toNat
        · by_cases hbc : b.toNat < c.toNat
          · simp [Nat.lt_trans hab hbc]
          · simp [hbc] at hyz
            rcases hyz with ⟨hbc2, _⟩
            simp [hbc2 ▸ hab]
        · simp [hab] at hxy
          rcases hxy with ⟨hab2, htail⟩
          by_cases hbc : b.toNat < c.toNat
          · simp [hab2 ▸ hbc]
          · simp [hbc] at hyz
            rcases hyz with ⟨hbc2, htail2⟩
            have hac : ¬ a.toNat < c.toNat := by omega
            simp [hac, hab2.trans hbc2, ih htail htail2]

theorem lexLt_connex : ∀ {x y : List Char}, x ≠ y →
    lexLt x y = true ∨ lexLt y x = true := by
  intro x
  induction x with
  | nil =>
    intro y hne
    cases y with
    | nil => exact absurd rfl hne
    | cons b bs => left; simp [lexLt]
  | cons a as ih =>
    intro y hne
    cases y with
    | nil => right; simp [lexLt]
    | cons b bs =>
      by_cases hab : a.toNat = b.toNat
      · have hchar : a = b := Char.eq_of_val_eq (by
          apply UInt32.eq_of_val_eq
          exact Fin.eq_of_val_eq hab)
        subst hchar
        have hne2 : as ≠ bs := fun h => hne (by rw [h])
        rcases ih hne2 with h | h
        · left; simp [lexLt, hab, h]
        · right; simp [lexLt, h]
      · rcases Nat.lt_or_ge a.toNat b.toNat with h | h
        · left; simp [lexLt, h]
        · have hlt : b.toNat < a.toNat := by omega
          right; simp [lexLt, hlt]

theorem string_ne_data_ne {s t : String} (h : s ≠ t) : s.data ≠ t.data := by
  intro hd
  exact h (by cases s; cases t; exact congrArg String.mk hd)

theorem rowLE_total : ∀ a b : Row, rowLE a b = true ∨ rowLE b a = true := by
  intro a b
  simp only [rowLE]
  by_cases h1 : (sortKey a).1 = (sortKey b).1
  · simp only [h1, if_pos rfl, if_pos]
    by_cases h2 : (sortKey a).2.1 = (sortKey b).2.1
    · simp only [h2, if_pos rfl, if_pos]
      rcases Int.le_total (sortKey a).2.2 (sortKey b).2.2 with h | h
      · left; simpa using h
      · right; simpa using h
    · have h2s := h2
      simp only [if_neg h2, if_neg (Ne.symm h2)]
      rcases lexLt_connex (string_ne_data_ne h2) with h | h
      · left; exact h
      · right; exact h
  · simp only [if_neg h1, if_neg (Ne.symm h1)]
    rcases lexLt_connex (string_ne_data_ne h1) with h | h
    · left; exact h
    · right; exact h

theorem lexLt_ne {x y : List Char} (h : lexLt x y = true) : x ≠ y := by
  intro he
  rw [he, lexLt_irrefl] at h
  exact absurd h (by simp)

theorem rowLE_trans : ∀ {a b c : Row},
    rowLE a b = true → rowLE b c = true → rowLE a c = true := by
  intro a b c hab hbc
  simp only [rowLE] at hab hbc ⊢
  by_cases h1 : (sortKey a).1 = (sortKey b).1
  · by_cases h2 : (sortKey b).1 = (sortKey c).1
    · have h3 : (sortKey a).1 = (sortKey c).1 := h1.trans h2
      simp only [if_pos h1] at hab
      simp only [if_pos h2] at hbc
      simp only [if_pos h3]
      by_cases h4 : (sortKey a).2.1 = (sortKey b).2.1
      · by_cases h5 : (sortKey b).2.1 = (sortKey c).2.1
        · have h6 : (sortKey a).2.1 = (sortKey c).2.1 := h4.trans h5
          simp only [if_pos h4] at hab
          simp only [if_pos h5] at hbc
          simp only [if_pos h6]
          simp only [decide_eq_true_eq] at hab hbc ⊢
          omega
        · have h6 : (sortKey a).2.1 ≠ (sortKey c).2.1 := h4 ▸ h5
          simp only [if_neg h5] at hbc
          simp only [if_neg h6]
          exact h4 ▸ hbc
      · by_cases h5 : (sortKey b).2.1 = (sortKey c).2.1
        · have h6 : (sortKey a).2.1 ≠ (sortKey c).2.1 := fun h => h4 (h.trans h5.symm)
          simp only [if_neg h4] at hab
          simp only [if_neg h6]
          exact h5 ▸ hab
        · simp only [if_neg h4] at hab
          simp only [if_neg h5] at hbc
          have h6 : lexLt (sortKey a).2.1.data (sortKey c).2.1.data = true :=
            lexLt_trans hab hbc
          have h7 : (sortKey a).2.1 ≠ (sortKey c).2.1 := by
            intro he
            exact lexLt_ne h6 (by rw [he])
          simp only [if_neg h7]
          exact h6
    · have h3 : (sortKey a).1 ≠ (sortKey c).1 := h1 ▸ h2
      simp only [if_neg h2] at hbc
      simp only [if_neg h3]
      exact h1 ▸ hbc
  · by_cases h2 : (sortKey b).1 = (sortKey c).1
    · have h3 : (sortKey a).1 ≠ (sortKey c).1 := fun h => h1 (h.trans h2.symm)
      simp only [if_neg h1] at hab
      simp only [if_neg h3]
      exact h2 ▸ hab
    · simp only [if_neg h1] at hab
      simp only [if_neg h2] at hbc
      have h6 : lexLt (sortKey a).1.data (sortKey c).1.data = true := lexLt_trans hab hbc
      have h7 : (sortKey a).1 ≠ (sortKey c).1 := by
        intro he
        exact lexLt_ne h6 (by rw [he])
      simp only [if_neg h7]
      exact h6

theorem mem_insertRow {x r : Row} : ∀ {l : List Row},
    r ∈ insertRow x l → r = x ∨ r ∈ l := by
  intro l
  induction l with
  | nil => intro h; simp [insertRow] at h; exact Or.inl h
  | cons y ys ih =>
    intro h
    simp only [insertRow] at h
    by_cases hc : rowLE x y = true
    · rw [if_pos hc] at h
      rcases List.mem_cons.mp h with h | h
      · exact Or.inl h
      · exact Or.inr h
    · rw [if_neg hc] at h
      rcases List.mem_cons.mp h with h | h
      · exact Or.inr (by simp [h])
      · rcases ih h with h2 | h2
        · exact Or.inl h2
        · exact Or.inr (List.mem_cons_of_mem y h2)

theorem perm_insertRow (x : Row) : ∀ l : List Row, List.Perm (insertRow x l) (x :: l) := by
  intro l
  induction l with
  | nil => simp [insertRow]
  | cons y ys ih =>
    simp only [insertRow]
    by_cases hc : rowLE x y = true
    · rw [if_pos hc]
    · rw [if_neg hc]
      exact (ih.cons y).trans (List.Perm.swap x y ys)

theorem sortRows_perm : ∀ l : List Row, List.Perm (sortRows l) l := by
  intro l
  induction l with
  | nil => simp [sortRows]
  | cons x xs ih =>
    exact (perm_insertRow x (sortRows xs)).trans (ih.cons x)

theorem pairwise_insertRow {x : Row} : ∀ {l : List Row},
    List.Pairwise (fun a b => rowLE a b = true) l →
    List.Pairwise (fun a b => rowLE a b = true) (insertRow x l) := by
  intro l
  induction l with
  | nil => intro _; simp [insertRow]
  | cons y ys ih =>
    intro hp
    rcases List.pairwise_cons.mp hp with ⟨hy, hys⟩
    simp only [insertRow]
    by_cases hc : rowLE x y = true
    · rw [if_pos hc]
      refine List.pairwise_cons.mpr ⟨?_, hp⟩
      intro b hb
      rcases List.mem_cons.mp hb with h | h
      · exact h ▸ hc
      · exact rowLE_trans hc (hy b h)
    · rw [if_neg hc]
      refine List.pairwise_cons.mpr ⟨?_, ih hys⟩
      intro b hb
      rcases mem_insertRow hb with h | h
      · subst h
        rcases rowLE_total y b with h2 | h2
        · exact h2
        · exact absurd h2 hc
      · exact hy b h

theorem sortRows_sorted : ∀ l : List Row,
    List.Pairwise (fun a b => rowLE a b = true) (sortRows l) := by
  intro l
  induction l with
  | nil => simp [sortRows]
  | cons x xs ih => exact pairwise_insertRow ih

/-
Provenance of output rows: every row of a successful run is either the
synthetic Energy Sensor row or a join row built from a classified name.
-/

theorem mem_processRow {amino : List (String × PyFloat)} {r : CsvRow} {l : List Row}
    {row : Row} (h : processRow amino r = .ok l) (hm : row ∈ l) :
    ∃ mi mc pcode kind, pcode ∈ promoters.map Prod.snd ∧
      sensorKindFromName kind = some kind ∧ row = mkJoinRow amino mi mc pcode kind := by
  cases hmod : alookup "Modifier" r with
  | none => simp [processRow, hmod] at h
  | some mcell =>
    cases hint : pyInt (pyStrip mcell) with
    | none => simp [processRow, hmod, hint] at h
    | some midx =>
      cases haa : alookup "Modifier_AA" r with
      | none => simp [processRow, hmod, hint, haa] at h
      | some macell =>
        simp only [processRow, hmod, hint, haa, Except.ok.injEq] at h
        have hl : l = promoters.filterMap fun pc =>
            processPromoter amino midx (pyStrip macell) pc.2
              (pyStrip ((alookup pc.1 r).getD "")) := h.symm
        subst hl
        rcases List.mem_filterMap.mp hm with ⟨pc, hpc, hsome⟩
        unfold processPromoter at hsome
        cases hk : sensorKindFromName (pyStrip ((alookup pc.1 r).getD "")) with
        | none => rw [hk] at hsome; exact absurd hsome (by simp)
        | some kind =>
          rw [hk] at hsome
          have hrow : row = mkJoinRow amino midx (pyStrip macell) pc.2 kind := by
            simpa using hsome.symm
          refine ⟨midx, pyStrip macell, pc.2, kind, List.mem_map_of_mem Prod.snd hpc, ?_, hrow⟩
          have : kind = pyStrip ((alookup pc.1 r).getD "") := by
            unfold sensorKindFromName at hk
            by_cases hs : (alookup (pyStrip ((alookup pc.1 r).getD ""))
                SENSOR_NAME_TO_TYPE_ID).isSome
            · rw [if_pos hs] at hk; cases hk; rfl
            · rw [if_neg hs] at hk; exact absurd hk (by simp)
          rw [this] at hk ⊢
          exact hk

theorem mem_processRows {amino : List (String × PyFloat)} {row : Row} :
    ∀ {rows : List CsvRow} {l : List Row},
    processRows amino rows = .ok l → row ∈ l →
    ∃ mi mc pcode kind, pcode ∈ promoters.map Prod.snd ∧
      sensorKindFromName kind = some kind ∧ row = mkJoinRow amino mi mc pcode kind := by
  intro rows
  induction rows with
  | nil =>
    intro l h hm
    simp only [processRows, Except.ok.injEq] at h
    subst h
    exact absurd hm (by simp)
  | cons r rest ih =>
    intro l h hm
    cases h1 : processRow amino r with
    | error e => simp [processRows, h1] at h
    | ok l0 =>
      cases h2 : processRows amino rest with
      | error e => simp [processRows, h1, h2] at h
      | ok ls =>
        simp only [processRows, h1, h2, Except.ok.injEq] at h
        have hl : l = l0 ++ ls := h.symm
        subst hl
        rcases List.mem_append.mp hm with hm0 | hm1
        · exact mem_processRow h1 hm0
        · exact ih h2 hm1

theorem mem_generate_table {shaderLines : List String} {csvRows : List CsvRow}
    {out : List Row} {row : Row}
    (h : generate_table shaderLines csvRows = .ok out) (hm : row ∈ out) :
    row = energyRow ∨ ∃ amino mi mc pcode kind, pcode ∈ promoters.map Prod.snd ∧
      sensorKindFromName kind = some kind ∧ row = mkJoinRow amino mi mc pcode kind := by
  cases hp : parseLoopRec shaderLines [] with
  | error e => simp [generate_table, hp] at h
  | ok param1 =>
    cases hr : processRows (buildAmino (param1.map Prod.snd)) csvRows with
    | error e => simp [generate_table, hp, hr] at h
    | ok rows =>
      simp only [generate_table, hp, hr, Except.ok.injEq] at h
      have hout : out = sortRows (if (alookup 24 param1).isSome then rows ++ [energyRow]
          else rows) := h.symm
      subst hout
      have hm2 : row ∈ (if (alookup 24 param1).isSome then rows ++ [energyRow] else rows) :=
        (sortRows_perm _).mem_iff.mp hm
      by_cases h24 : (alookup 24 param1).isSome
      · rw [if_pos h24] at hm2
        rcases List.mem_append.mp hm2 with hm3 | hm3
        · exact Or.inr ⟨_, mem_processRows hr hm3⟩
        · exact Or.inl (by simpa using hm3)
      · rw [if_neg h24] at hm2
        exact Or.inr ⟨_, mem_processRows hr hm2⟩

/-
Counting lemmas.
-/

theorem length_filterMap_eq {α β : Type} (f : α → Option β) :
    ∀ l : List α, (l.filterMap f).length = (l.filter fun x => (f x).isSome).length := by
  intro l
  induction l with
  | nil => rfl
  | cons a as ih =>
    cases hf : f a with
    | none => simp [List.filterMap_cons, List.filter_cons, hf, ih]
    | some b => simp [List.filterMap_cons, List.filter_cons, hf, ih]

theorem processRow_length {amino : List (String × PyFloat)} {r : CsvRow} {l : List Row}
    (h : processRow amino r = .ok l) :
    l.length = (promoters.filter fun pc =>
      (sensorKindFromName (pyStrip ((alookup pc.1 r).getD ""))).isSome).length := by
  cases hmod : alookup "Modifier" r with
  | none => simp [processRow, hmod] at h
  | some mcell =>
    cases hint : pyInt (pyStrip mcell) with
    | none => simp [processRow, hmod, hint] at h
    | some midx =>
      cases haa : alookup "Modifier_AA" r with
      | none => simp [processRow, hmod, hint, haa] at h
      | some macell =>
        simp only [processRow, hmod, hint, haa, Except.ok.injEq] at h
        subst h
        rw [length_filterMap_eq]
        congr 1
        apply List.filter_congr
        intro pc _
        simp [processPromoter]

theorem processRows_length {amino : List (String × PyFloat)} :
    ∀ {rows : List CsvRow} {l : List Row},
    processRows amino rows = .ok l → l.length = classifiedCount rows := by
  intro rows
  induction rows with
  | nil =>
    intro l h
    simp only [processRows, Except.ok.injEq] at h
    subst h
    simp [classifiedCount]
  | cons r rest ih =>
    intro l h
    cases h1 : processRow amino r with
    | error e => simp [processRows, h1] at h
    | ok l0 =>
      cases h2 : processRows amino rest with
      | error e => simp [processRows, h1, h2] at h
      | ok ls =>
        simp only [processRows, h1, h2, Except.ok.injEq] at h
        subst h
        simp only [List.length_append, processRow_length h1, ih h2, classifiedCount,
          List.map_cons, List.sum_cons]

theorem promoter_codes (pcode : String) (hp : pcode ∈ promoters.map Prod.snd) :
    pcode = "V" ∨ pcode = "M" ∨ pcode = "H" ∨ pcode = "Q" := by
  simpa [promoters] using hp

theorem isSyntheticEnergy_mkJoinRow {amino : List (String × PyFloat)} {mi : Int}
    {mc pcode kind : String} (hp : pcode ∈ promoters.map Prod.snd) :
    isSyntheticEnergy (mkJoinRow amino mi mc pcode kind) = false := by
  have hpc : (mkJoinRow amino mi mc pcode kind).promoter_code = pcode := rfl
  have hne : pcode ≠ "" := by
    rcases promoter_codes pcode hp with h | h | h | h <;> subst h <;> decide
  simp [isSyntheticEnergy, hpc, hne]

theorem isSyntheticEnergy_energyRow : isSyntheticEnergy energyRow = true := by decide

/-- Successful runs sort their rows. -/
theorem generate_table_is_sorted {shaderLines : List String} {csvRows : List CsvRow}
    {out : List Row} (h : generate_table shaderLines csvRows = .ok out) :
    ∃ l, out = sortRows l := by
  cases hp : parseLoopRec shaderLines [] with
  | error e => simp [generate_table, hp] at h
  | ok param1 =>
    cases hr : processRows (buildAmino (param1.map Prod.snd)) csvRows with
    | error e => simp [generate_table, hp, hr] at h
    | ok rows =>
      simp only [generate_table, hp, hr, Except.ok.injEq] at h
      exact ⟨_, h.symm⟩

/-
Concrete example inputs for the witnesses: a shader fragment with amino acids
V (param1 -0.23) and H (param1 0.1), the Energy Sensor record at index 24,
and one CSV row joining V with modifier H on an Alpha Sensor and Q with
modifier H on an Agent Beta Sensor.
-/

def wLines : List String :=
  ["// 17 V - Valine",
   "d = array<vec4<f32>,6>(vec4<f32>(0,0,0,0), vec4<f32>(0,0,0,0), vec4<f32>(0,0,0,0), vec4<f32>(0.0, 0.3, -0.73, -0.23), vec4<f32>(0,0,0,0));",
   "// 8 H - Histidine",
   "d = array<vec4<f32>,6>(vec4<f32>(0,0,0,0), vec4<f32>(0,0,0,0), vec4<f32>(0,0,0,0), vec4<f32>(0, 0, 0, 0.1), vec4<f32>(0,0,0,0));",
   "// 24 E - Energy Sensor",
   "d = array<vec4<f32>,6>(vec4<f32>(0,0,0,0), vec4<f32>(0,0,0,0), vec4<f32>(0,0,0,0), vec4<f32>(0, 0, 0, 0.5), vec4<f32>(0,0,0,0));"]

def wCsv : List CsvRow :=
  [[("Modifier", "5"), ("Modifier_AA", "H"), ("V_Valine", "Alpha Sensor"),
    ("Q_Glutamine", "Agent Beta Sensor")]]

def wTable : List (Nat × Param1Entry) :=
  [(17, ⟨17, "V", "Valine", ⟨-23, 100⟩⟩),
   (8, ⟨8, "H", "Histidine", ⟨1, 10⟩⟩),
   (24, ⟨24, "E", "Energy Sensor", ⟨5, 10⟩⟩)]

def wRowAgent : Row :=
  ⟨"Agent Beta Sensor", 35, "Q", .pyNone, .int 5, "H", .num ⟨1, 10⟩, .pyNone, .pyNone,
   .pyNone, nonParam1Note⟩

def wRowAlpha : Row :=
  ⟨"Alpha Sensor", 22, "V", .num ⟨-23, 100⟩, .int 5, "H", .num ⟨1, 10⟩,
   .num ⟨-130, 1000⟩, .num ⟨130, 1000⟩, .int (-1), envDyeNote⟩

def wOut : List Row := [wRowAgent, wRowAlpha, energyRow]

/-
C1.  The claim says the synthetic Energy Sensor row is appended when the
parsed table holds a record whose NAME resolves to "Energy Sensor",
independent of any index.  The code instead tests "24 in param1" (line 174):
a record named "Energy Sensor" parsed at another index appends nothing.
-/

def xLines : List String :=
  ["// 25 E - Energy Sensor",
   "d = array<vec4<f32>,6>(vec4<f32>(0,0,0,0), vec4<f32>(0,0,0,0), vec4<f32>(0,0,0,0), vec4<f32>(0,0,0,1));"]

/-- C1 counterexample: a shader table whose only record is named
"Energy Sensor" (a name that classifies to the Energy Sensor kind) but sits
at index 25; with an empty CSV the generated table is empty, so no synthetic
row is appended even though a record resolving to the kind exists.  The
appending is decided by the index 24, not by the name. -/
theorem c1_counterexample :
    parseLoopRec xLines [] = .ok [(25, ⟨25, "E", "Energy Sensor", ⟨1, 1⟩⟩)] ∧
    sensorKindFromName "Energy Sensor" = some "Energy Sensor" ∧
    generate_table xLines [] = .ok [] :=
  ⟨rfl, rfl, rfl⟩

/-- C1 amended: the run appends exactly one synthetic Energy Sensor row
(sensor kind "Energy Sensor", every join field the empty string) exactly
when the parsed table contains the index 24, whatever the record names and
the CSV contents; no other row of the output has that all-empty shape. -/
theorem c1_amended (shaderLines : List String) (csvRows : List CsvRow)
    (param1T : List (Nat × Param1Entry)) (out : List Row)
    (hp : parseLoopRec shaderLines [] = .ok param1T)
    (hg : generate_table shaderLines csvRows = .ok out) :
    out.countP isSyntheticEnergy = (if (alookup 24 param1T).isSome then 1 else 0) := by
  cases hr : processRows (buildAmino (param1T.map Prod.snd)) csvRows with
  | error e => simp [generate_table, hp, hr] at hg
  | ok rows =>
    simp only [generate_table, hp, hr, Except.ok.injEq] at hg
    have hc : out.countP isSyntheticEnergy =
        (if (alookup 24 param1T).isSome then rows ++ [energyRow] else rows).countP
          isSyntheticEnergy := by
      rw [← hg]
      exact List.Perm.countP_eq _ (sortRows_perm _)
    have hz : rows.countP isSyntheticEnergy = 0 := by
      apply List.countP_eq_zero.mpr
      intro a ha
      rcases mem_processRows hr ha with ⟨mi, mc, pcode, kind, hpc, _, hrow⟩
      rw [hrow]
      simp [isSyntheticEnergy_mkJoinRow hpc]
    by_cases h24 : (alookup 24 param1T).isSome
    · rw [hc, if_pos h24, if_pos h24, List.countP_append, hz]
      decide
    · rw [hc, if_neg h24, if_neg h24, hz]

/-- C1 witness: on the example inputs the parsed table holds index 24 and
the output contains exactly one all-empty Energy Sensor row. -/
theorem c1_witness :
    parseLoopRec wLines [] = .ok wTable ∧ generate_table wLines wCsv = .ok wOut ∧
    wOut.countP isSyntheticEnergy = (if (alookup 24 wTable).isSome then 1 else 0) :=
  ⟨rfl, rfl, c1_amended wLines wCsv wTable wOut rfl rfl⟩

/-
C2.  The claim ties the "non-param1-sensor" note to the conjunction of
allow-list membership and param1 presence; the code (lines 164-168) picks
the note from allow-list membership alone.
-/

def yLines : List String :=
  ["// 8 H - Histidine",
   "d = array<vec4<f32>,6>(vec4<f32>(0,0,0,0), vec4<f32>(0,0,0,0), vec4<f32>(0,0,0,0), vec4<f32>(0, 0, 0, 0.1));"]

def yCsv : List CsvRow :=
  [[("Modifier", "5"), ("Modifier_AA", "H"), ("V_Valine", "Alpha Sensor")]]

def yRow : Row :=
  ⟨"Alpha Sensor", 22, "V", .pyNone, .int 5, "H", .num ⟨1, 10⟩, .pyNone, .pyNone,
   .pyNone, envDyeNote⟩

/-- C2 counterexample: a classified pair on the allow-listed Alpha Sensor
(id 22) whose promoter code V has no param1 in the amino table: the derived
fields are empty, but the note is the env-dye string, not the
"non-param1-sensor" string the claim requires for this case. -/
theorem c2_counterexample :
    generate_table yLines yCsv = .ok [yRow] ∧
    yRow.promoter_param1 = Cell.pyNone ∧
    usesParam1Gain yRow.organ_type_id = true ∧
    yRow.notes ≠ nonParam1Note :=
  ⟨rfl, rfl, rfl, by decide⟩

/-- C2 amended: for every output row of a successful run other than the
synthetic Energy Sensor row, if the organ-type id is outside the allow-list
{22,23,38,39,40,41} or either param1 is absent, then combined, gain_abs and
polarity are all empty (None); the note is the "non-param1-sensor" string
exactly when the id is outside the allow-list (the note does not depend on
param1 presence). -/
theorem c2_amended (shaderLines : List String) (csvRows : List CsvRow) (out : List Row)
    (r : Row) (hg : generate_table shaderLines csvRows = .ok out) (hm : r ∈ out)
    (hne : r ≠ energyRow)
    (hcase : usesParam1Gain r.organ_type_id = false ∨ r.promoter_param1 = Cell.pyNone ∨
      r.modifier_param1 = Cell.pyNone) :
    r.combined_param1 = Cell.pyNone ∧ r.gain_abs = Cell.pyNone ∧
    r.polarity = Cell.pyNone ∧
    (r.notes = nonParam1Note ↔ usesParam1Gain r.organ_type_id = false) := by
  rcases mem_generate_table hg hm with he | ⟨amino, mi, mc, pcode, kind, _, _, hrow⟩
  · exact absurd he hne
  · subst hrow
    by_cases hu : usesParam1Gain ((alookup kind SENSOR_NAME_TO_TYPE_ID).getD 0) = true
    · have hcase2 : alookup pcode amino = none ∨ alookup mc amino = none := by
        rcases hcase with h | h | h
        · exact absurd h (by simp [mkJoinRow, hu])
        · left
          cases hl : alookup pcode amino with
          | none => rfl
          | some q => rw [show (mkJoinRow amino mi mc pcode kind).promoter_param1 =
              cellOfOpt (alookup pcode amino) from rfl, hl] at h; exact absurd h (by simp [cellOfOpt])
        · right
          cases hl : alookup mc amino with
          | none => rfl
          | some q => rw [show (mkJoinRow amino mi mc pcode kind).modifier_param1 =
              cellOfOpt (alookup mc amino) from rfl, hl] at h; exact absurd h (by simp [cellOfOpt])
      rcases hcase2 with h | h
      · simp [mkJoinRow, hu, h, cellOfOpt, envDyeNote, nonParam1Note]
      · cases hl : alookup pcode amino <;>
          simp [mkJoinRow, hu, h, hl, cellOfOpt, envDyeNote, nonParam1Note]
    · have hu2 : usesParam1Gain ((alookup kind SENSOR_NAME_TO_TYPE_ID).getD 0) = false := by
        simpa using hu
      simp [mkJoinRow, hu2, cellOfOpt]

/-- C2 witness: the Agent Beta Sensor row of the example run (id 35, outside
the allow-list) has empty derived fields and the non-param1 note. -/
theorem c2_witness :
    generate_table wLines wCsv = .ok wOut ∧ wRowAgent ∈ wOut ∧ wRowAgent ≠ energyRow ∧
    usesParam1Gain wRowAgent.organ_type_id = false ∧
    wRowAgent.combined_param1 = Cell.pyNone ∧ wRowAgent.gain_abs = Cell.pyNone ∧
    wRowAgent.polarity = Cell.pyNone ∧
    (wRowAgent.notes = nonParam1Note ↔ usesParam1Gain wRowAgent.organ_type_id = false) := by
  have h := c2_amended wLines wCsv wOut wRowAgent rfl (by simp [wOut]) (by decide)
    (Or.inl (by decide))
  exact ⟨rfl, by simp [wOut], by decide, by decide, h.1, h.2.1, h.2.2.1, h.2.2.2⟩

/-
C3.  Allow-listed organ with both param1 values present: the derived gain
fields (lines 147-150).
-/

/-- C3: in every successful run, an output row whose organ-type id is in the
allow-list and whose promoter and modifier param1 fields hold values p and m
has combined = p + m, gain_abs = abs(p + m) and polarity = 1 when p + m is
nonnegative, else -1. -/
theorem c3_gain_polarity (shaderLines : List String) (csvRows : List CsvRow)
    (out : List Row) (r : Row) (p m : PyFloat)
    (hg : generate_table shaderLines csvRows = .ok out) (hm : r ∈ out)
    (hu : usesParam1Gain r.organ_type_id = true)
    (hp : r.promoter_param1 = Cell.num p) (hmm : r.modifier_param1 = Cell.num m) :
    r.combined_param1 = Cell.num (pfAdd p m) ∧
    r.gain_abs = Cell.num (pfAbs (pfAdd p m)) ∧
    r.polarity = Cell.int (if pfNonneg (pfAdd p m) then 1 else -1) := by
  rcases mem_generate_table hg hm with he | ⟨amino, mi, mc, pcode, kind, _, _, hrow⟩
  · rw [he] at hu
    exact absurd hu (by decide)
  · subst hrow
    have hu2 : usesParam1Gain ((alookup kind SENSOR_NAME_TO_TYPE_ID).getD 0) = true := hu
    have hp2 : alookup pcode amino = some p := by
      cases hl : alookup pcode amino with
      | none => rw [show (mkJoinRow amino mi mc pcode kind).promoter_param1 =
          cellOfOpt (alookup pcode amino) from rfl, hl] at hp; exact absurd hp (by simp [cellOfOpt])
      | some q =>
        rw [show (mkJoinRow amino mi mc pcode kind).promoter_param1 =
          cellOfOpt (alookup pcode amino) from rfl, hl] at hp
        simpa [cellOfOpt] using hp
    have hm2 : alookup mc amino = some m := by
      cases hl : alookup mc amino with
      | none => rw [show (mkJoinRow amino mi mc pcode kind).modifier_param1 =
          cellOfOpt (alookup mc amino) from rfl, hl] at hmm; exact absurd hmm (by simp [cellOfOpt])
      | some q =>
        rw [show (mkJoinRow amino mi mc pcode kind).modifier_param1 =
          cellOfOpt (alookup mc amino) from rfl, hl] at hmm
        simpa [cellOfOpt] using hmm
    simp [mkJoinRow, hu2, hp2, hm2, cellOfOpt]

/-- C3 witness: the Alpha Sensor row of the example run: -0.23 + 0.1 gives
combined -0.13, gain_abs 0.13, polarity -1 (the worked example of the
spec). -/
theorem c3_witness :
    generate_table wLines wCsv = .ok wOut ∧ wRowAlpha ∈ wOut ∧
    usesParam1Gain wRowAlpha.organ_type_id = true ∧
    wRowAlpha.promoter_param1 = Cell.num ⟨-23, 100⟩ ∧
    wRowAlpha.modifier_param1 = Cell.num ⟨1, 10⟩ ∧
    wRowAlpha.combined_param1 = Cell.num (pfAdd ⟨-23, 100⟩ ⟨1, 10⟩) ∧
    wRowAlpha.gain_abs = Cell.num (pfAbs (pfAdd ⟨-23, 100⟩ ⟨1, 10⟩)) ∧
    wRowAlpha.polarity = Cell.int (if pfNonneg (pfAdd ⟨-23, 100⟩ ⟨1, 10⟩) then 1 else -1) := by
  have h := c3_gain_polarity wLines wCsv wOut wRowAlpha ⟨-23, 100⟩ ⟨1, 10⟩ rfl
    (by simp [wOut]) (by decide) rfl rfl
  exact ⟨rfl, by simp [wOut], by decide, rfl, rfl, h.1, h.2.1, h.2.2⟩

/-
C6.  The sort contract of lines 191-199.
-/

/-- C6: the output of every successful run is pairwise ordered by the sort
key (sensor kind, promoter code as string, modifier index as int with the
999 sentinel for non-ints), and within a group sharing sensor kind and
promoter code every row whose modifier index is not an int comes after
every row whose modifier index is an int. -/
theorem c6_sorted (shaderLines : List String) (csvRows : List CsvRow) (out : List Row)
    (hg : generate_table shaderLines csvRows = .ok out) :
    List.Pairwise (fun a b => rowLE a b = true) out ∧
    ∀ i j (hi : i < out.length) (hj : j < out.length),
      (out.get ⟨i, hi⟩).sensor_kind = (out.get ⟨j, hj⟩).sensor_kind →
      (out.get ⟨i, hi⟩).promoter_code = (out.get ⟨j, hj⟩).promoter_code →
      isIntCell (out.get ⟨i, hi⟩).modifier_index = false →
      isIntCell (out.get ⟨j, hj⟩).modifier_index = true → j < i := by
  constructor
  · rcases generate_table_is_sorted hg with ⟨l, hl⟩
    rw [hl]
    exact sortRows_sorted l
  · intro i j hi hj hk hpc hni hij
    have hmi : out.get ⟨i, hi⟩ ∈ out := List.get_mem out i hi
    have hmj : out.get ⟨j, hj⟩ ∈ out := List.get_mem out j hj
    have hei : out.get ⟨i, hi⟩ = energyRow := by
      rcases mem_generate_table hg hmi with he | ⟨amino, mi, mc, pcode, kind, _, _, hrow⟩
      · exact he
      · rw [hrow] at hni
        exact absurd hni (by simp [mkJoinRow, isIntCell])
    rcases mem_generate_table hg hmj with he2 | ⟨amino, mi, mc, pcode, kind, hpcm, _, hrow⟩
    · rw [he2] at hij
      exact absurd hij (by decide)
    · exfalso
      have h1 : (out.get ⟨i, hi⟩).promoter_code = "" := by rw [hei]; rfl
      have h2 : (out.get ⟨j, hj⟩).promoter_code = pcode := by rw [hrow]; rfl
      have h3 : pcode = "" := by rw [← h2, ← hpc, h1]
      rcases promoter_codes pcode hpcm with h | h | h | h <;> rw [h3] at h <;>
        exact absurd h (by decide)

/-- C6 witness: the example output is pairwise ordered by the sort key. -/
theorem c6_witness :
    generate_table wLines wCsv = .ok wOut ∧
    List.Pairwise (fun a b => rowLE a b = true) wOut :=
  ⟨rfl, (c6_sorted wLines wCsv wOut rfl).1⟩

/-
C7.  The output row count of lines 120-189.
-/

/-- C7: the row count of every successful run equals the number of
(CSV row, promoter column) pairs whose organ name classifies to a sensor
kind, plus one exactly when the parsed table contains index 24 (the Energy
Sensor row); unclassified pairs contribute nothing. -/
theorem c7_row_count (shaderLines : List String) (csvRows : List CsvRow)
    (param1T : List (Nat × Param1Entry)) (out : List Row)
    (hp : parseLoopRec shaderLines [] = .ok param1T)
    (hg : generate_table shaderLines csvRows = .ok out) :
    out.length = classifiedCount csvRows + (if (alookup 24 param1T).isSome then 1 else 0) := by
  cases hr : processRows (buildAmino (param1T.map Prod.snd)) csvRows with
  | error e => simp [generate_table, hp, hr] at hg
  | ok rows =>
    simp only [generate_table, hp, hr, Except.ok.injEq] at hg
    have hlen : out.length =
        (if (alookup 24 param1T).isSome then rows ++ [energyRow] else rows).length := by
      rw [← hg]
      exact (sortRows_perm _).length_eq
    have hrl : rows.length = classifiedCount csvRows := processRows_length hr
    by_cases h24 : (alookup 24 param1T).isSome
    · simp [hlen, h24, hrl]
    · simp [hlen, h24, hrl]

/-- C7 witness: the example run classifies two pairs, has index 24 parsed,
and outputs three rows. -/
theorem c7_witness :
    parseLoopRec wLines [] = .ok wTable ∧ generate_table wLines wCsv = .ok wOut ∧
    wOut.length = classifiedCount wCsv + (if (alookup 24 wTable).isSome then 1 else 0) :=
  ⟨rfl, rfl, c7_row_count wLines wCsv wTable wOut rfl rfl⟩

/-
C5.  The scan policy of the while loop (lines 40-83): after a header at
position i, whether abandoned or consumed, the loop continues at i + 1,
which in this suffix formulation is the tail of the line list; every line of
a consumed data block is therefore re-examined by headerMatch.
-/

/-- C5: for a line matching a header, (1) when the forward scan over the
following lines finds no data line (in particular when it reaches another
comment line first) no record is emitted, entries are unchanged, and the
main scan resumes with the lines after the header; (2) when a data line is
found and its record extracted, the scan also resumes with the lines
directly after the header (not after the data line), re-examining the data
block's lines as potential headers; (3) a nonblank line whose stripped text
starts with the comment marker stops the forward scan with no data line. -/
theorem c5_scan_resume (l : String) (rest : List String)
    (entries : List (Nat × Param1Entry)) (hd : Header) (hh : headerMatch l = some hd) :
    (scanData rest = none → parseLoopRec (l :: rest) entries = parseLoopRec rest entries) ∧
    (∀ dl v, scanData rest = some dl → extractParam1 hd.idx dl = .ok v →
      parseLoopRec (l :: rest) entries =
        parseLoopRec rest (pyDictInsert entries hd.idx ⟨hd.idx, hd.code, hd.name, v⟩)) ∧
    (∀ (l2 : String) (rest2 : List String), stripL l2.data ≠ [] →
      startsWithL "//".data (stripL l2.data) = true → scanData (l2 :: rest2) = none) := by
  refine ⟨?_, ?_, ?_⟩
  · intro hs
    simp [parseLoopRec, hh, hs]
  · intro dl v hs he
    simp [parseLoopRec, hh, hs, he]
  · intro l2 rest2 hne hcom
    have h1 : (stripL l2.data).isEmpty = false := by
      cases hsl : stripL l2.data with
      | nil => exact absurd hsl hne
      | cons a as => rfl
    simp [scanData, h1, hcom]

/-- C5 witness: a header abandoned at a following comment line resumes on
that very line (which is then itself parsed as a header), and a consumed
header's scan also resumes right after the header line. -/
theorem c5_witness :
    parseLoopRec ["// 3 A - Foo", "// 4 B - Bar"] [] = parseLoopRec ["// 4 B - Bar"] [] ∧
    parseLoopRec ["// 3 A - Foo",
        "array<vec4<f32>,6>(vec4<f32>(0,0,0,0),vec4<f32>(0,0,0,0),vec4<f32>(0,0,0,0),vec4<f32>(0,0,0,1))"] [] =
      parseLoopRec
        ["array<vec4<f32>,6>(vec4<f32>(0,0,0,0),vec4<f32>(0,0,0,0),vec4<f32>(0,0,0,0),vec4<f32>(0,0,0,1))"]
        (pyDictInsert [] 3 ⟨3, "A", "Foo", ⟨1, 1⟩⟩) ∧
    scanData ["// 4 B - Bar"] = none := by
  refine ⟨(c5_scan_resume "// 3 A - Foo" ["// 4 B - Bar"] [] ⟨3, "A", "Foo"⟩ rfl).1 ?_, ?_, ?_⟩
  · exact (c5_scan_resume "// 3 A - Foo" [] [] ⟨3, "A", "Foo"⟩ rfl).2.2 "// 4 B - Bar" []
      (by decide) (by decide)
  · exact (c5_scan_resume "// 3 A - Foo"
      ["array<vec4<f32>,6>(vec4<f32>(0,0,0,0),vec4<f32>(0,0,0,0),vec4<f32>(0,0,0,0),vec4<f32>(0,0,0,1))"]
      [] ⟨3, "A", "Foo"⟩ rfl).2.1
      "array<vec4<f32>,6>(vec4<f32>(0,0,0,0),vec4<f32>(0,0,0,0),vec4<f32>(0,0,0,0),vec4<f32>(0,0,0,1))"
      ⟨1, 1⟩ rfl rfl
  · exact (c5_scan_resume "// 3 A - Foo" [] [] ⟨3, "A", "Foo"⟩ rfl).2.2 "// 4 B - Bar" []
      (by decide) (by decide)

/-
C4.  Errors of the data-line extraction (lines 71-80).  The group-count and
component-count errors carry the record's index; the unparseable-component
error carries only the fragment — the index is absent from its message, which
corrects the claim's "whose message includes the record's index" for that
case.
-/

theorem floatExtract_error {p : List Char} {e : TErr}
    (h : floatExtract p = .error e) : ∃ frag, e = .parseError frag := by
  cases hs : searchFloat (stripL p) with
  | some v => simp [floatExtract, hs] at h
  | none =>
    simp only [floatExtract, hs, Except.error.injEq] at h
    exact ⟨String.mk (stripL p), h.symm⟩

theorem extractFloats_error : ∀ {ps : List (List Char)} {e : TErr},
    extractFloats ps = .error e → ∃ frag, e = .parseError frag := by
  intro ps
  induction ps with
  | nil => intro e h; exact absurd h (by simp [extractFloats])
  | cons p rest ih =>
    intro e h
    cases h1 : floatExtract p with
    | error e0 =>
      simp only [extractFloats, h1, Except.error.injEq] at h
      exact h ▸ floatExtract_error h1
    | ok v =>
      cases h2 : extractFloats rest with
      | error e1 =>
        simp only [extractFloats, h1, h2, Except.error.injEq] at h
        exact h ▸ ih h2
      | ok vs => simp [extractFloats, h1, h2] at h

/-- C4 counterexample: a matched header whose found data line has four
vector groups but an unparseable fourth-group component "x": the run aborts
with the ParseError naming the fragment, whose message does not include the
record's index (the claim requires a MalformedTableError including the
index for every malformed fourth group). -/
theorem c4_counterexample :
    parseLoopRec
      ["// 7 K - Lysine",
       "array<vec4<f32>,6>(vec4<f32>(1,1,1,1),vec4<f32>(1,1,1,1),vec4<f32>(1,1,1,1),vec4<f32>(1,2,3,x))"]
      [] = .error (.parseError "x") ∧
    errIdxInMessage (.parseError "x") = none :=
  ⟨rfl, rfl⟩

/-- C4 amended: for a matched header with a found data line, the run aborts
with no record emitted whenever the line has fewer than 4 vector groups
(MalformedTableError carrying the record's index) or the 4th group's
component count differs from 4 (MalformedTableError carrying the index) or
a 4th-group component has no numeric literal (ParseError carrying the
fragment, without the index); when all checks pass, param1 is the 4th
component of the 4th group and the scan continues past the header. -/
theorem c4_amended (l : String) (rest : List String)
    (entries : List (Nat × Param1Entry)) (hd : Header) (dl : String)
    (hh : headerMatch l = some hd) (hs : scanData rest = some dl) :
    ((findVec4Groups dl.data).length < 4 →
      parseLoopRec (l :: rest) entries = .error (.badGroupCount hd.idx dl) ∧
      errIdxInMessage (.badGroupCount hd.idx dl) = some hd.idx) ∧
    (∀ d3, ¬ (findVec4Groups dl.data).length < 4 →
      parseVec4Components ((findVec4Groups dl.data).getD 3 []) = .ok d3 → d3.length ≠ 4 →
      parseLoopRec (l :: rest) entries =
        .error (.badComponentCount hd.idx (String.mk ((findVec4Groups dl.data).getD 3 []))) ∧
      errIdxInMessage
        (.badComponentCount hd.idx (String.mk ((findVec4Groups dl.data).getD 3 []))) =
        some hd.idx) ∧
    (∀ e, ¬ (findVec4Groups dl.data).length < 4 →
      parseVec4Components ((findVec4Groups dl.data).getD 3 []) = .error e →
      parseLoopRec (l :: rest) entries = .error e ∧
      (∃ frag, e = .parseError frag) ∧ errIdxInMessage e = none) ∧
    (∀ d3, ¬ (findVec4Groups dl.data).length < 4 →
      parseVec4Components ((findVec4Groups dl.data).getD 3 []) = .ok d3 → d3.length = 4 →
      parseLoopRec (l :: rest) entries =
        parseLoopRec rest
          (pyDictInsert entries hd.idx ⟨hd.idx, hd.code, hd.name, d3.getD 3 ⟨0, 1⟩⟩)) := by
  refine ⟨?_, ?_, ?_, ?_⟩
  · intro hlt
    exact ⟨by simp only [parseLoopRec, hh, hs, extractParam1, if_pos hlt], rfl⟩
  · intro d3 hge hok hne
    refine ⟨?_, rfl⟩
    simp only [parseLoopRec, hh, hs, extractParam1, if_neg hge, hok, if_pos hne]
  · intro e hge herr
    have hpe : ∃ frag, e = .parseError frag := extractFloats_error (by
      simpa [parseVec4Components] using herr)
    refine ⟨?_, hpe, ?_⟩
    · simp only [parseLoopRec, hh, hs, extractParam1, if_neg hge, herr]
    · rcases hpe with ⟨frag, hfrag⟩
      rw [hfrag]
      rfl
  · intro d3 hge hok h4
    simp only [parseLoopRec, hh, hs, extractParam1, if_neg hge, hok,
      if_neg (not_not_intro h4)]

def hLine : String := "// 7 K - Lysine"

def dG3 : String :=
  "array<vec4<f32>,6>(vec4<f32>(1,1,1,1),vec4<f32>(1,1,1,1),vec4<f32>(1,1,1,1))"

def dC5 : String :=
  "array<vec4<f32>,6>(vec4<f32>(1,1,1,1),vec4<f32>(1,1,1,1),vec4<f32>(1,1,1,1),vec4<f32>(1,2,3,4,5))"

def dOK : String :=
  "array<vec4<f32>,6>(vec4<f32>(1,1,1,1),vec4<f32>(1,1,1,1),vec4<f32>(1,1,1,1),vec4<f32>(1,2,3,4))"

/-- C4 witness: the group-count failure, the component-count failure and the
success shape on concrete data lines under the header at index 7. -/
theorem c4_witness :
    parseLoopRec [hLine, dG3] [] = .error (.badGroupCount 7 dG3) ∧
    parseLoopRec [hLine, dC5] [] = .error (.badComponentCount 7 "1,2,3,4,5") ∧
    parseLoopRec [hLine, dOK] [] =
      parseLoopRec [dOK] (pyDictInsert [] 7 ⟨7, "K", "Lysine", ⟨4, 1⟩⟩) := by
  refine ⟨?_, ?_, ?_⟩
  · exact ((c4_amended hLine [dG3] [] ⟨7, "K", "Lysine"⟩ dG3 rfl rfl).1 (by decide)).1
  · exact (((c4_amended hLine [dC5] [] ⟨7, "K", "Lysine"⟩ dC5 rfl rfl).2.1
      [⟨1, 1⟩, ⟨2, 1⟩, ⟨3, 1⟩, ⟨4, 1⟩, ⟨5, 1⟩] (by decide) rfl (by decide)).1).trans rfl
  · exact ((c4_amended hLine [dOK] [] ⟨7, "K", "Lysine"⟩ dOK rfl rfl).2.2.2
      [⟨1, 1⟩, ⟨2, 1⟩, ⟨3, 1⟩, ⟨4, 1⟩] (by decide) rfl (by decide)).trans rfl

/-
C9.  Absent or blank promoter cells (lines 129-133): (r.get(col) or "")
turns an absent column or empty cell into "", which never classifies, so the
pair is skipped silently and the row still succeeds.
-/

/-- C9: an empty organ name never classifies, all-whitespace cells strip to
the empty string, and a CSV row with valid Modifier and Modifier_AA cells
but none of the four promoter columns processes successfully to no output
rows — no exception, every pair silently skipped. -/
theorem c9_promoter_skip (amino : List (String × PyFloat)) (r : CsvRow)
    (mi midx : Int) (mc pcode mcell macell : String) :
    processPromoter amino mi mc pcode "" = none ∧
    (∀ s : String, (∀ c ∈ s.data, pyWS c = true) → pyStrip s = "") ∧
    (alookup "Modifier" r = some mcell → pyInt (pyStrip mcell) = some midx →
      alookup "Modifier_AA" r = some macell →
      (∀ pc ∈ promoters, alookup pc.1 r = none) →
      processRow amino r = .ok []) := by
  refine ⟨rfl, ?_, ?_⟩
  · intro s hws
    have h1 : s.data.dropWhile pyWS = [] := by
      rw [List.dropWhile_eq_nil_iff]
      exact fun a ha => hws a ha
    show String.mk (((s.data.dropWhile pyWS).reverse.dropWhile pyWS).reverse) = ""
    rw [h1]
    rfl
  · intro h1 h2 h3 h4
    have e1 : alookup "V_Valine" r = none := h4 ("V_Valine", "V") (by simp [promoters])
    have e2 : alookup "M_Methionine" r = none := h4 ("M_Methionine", "M") (by simp [promoters])
    have e3 : alookup "H_Histidine" r = none := h4 ("H_Histidine", "H") (by simp [promoters])
    have e4 : alookup "Q_Glutamine" r = none := h4 ("Q_Glutamine", "Q") (by simp [promoters])
    simp [processRow, h1, h2, h3, promoters, e1, e2, e3, e4]
    exact ⟨rfl, rfl, rfl, rfl⟩

/-- C9 witness: a row having only Modifier and Modifier_AA runs through to
an empty output, and whitespace-only cells behave as empty. -/
theorem c9_witness :
    processPromoter [] 0 "" "" "" = none ∧
    pyStrip " \t " = "" ∧
    processRow [] [("Modifier", " 5 "), ("Modifier_AA", "H")] = .ok [] := by
  refine ⟨(c9_promoter_skip [] [] 0 5 "" "" "" "").1, ?_, ?_⟩
  · exact (c9_promoter_skip [] [] 0 5 "" "" "" "").2.1 " \t " (by decide)
  · exact (c9_promoter_skip [] [("Modifier", " 5 "), ("Modifier_AA", "H")] 0 5 "" ""
      " 5 " "H").2.2 rfl rfl rfl (by decide)

/-
C10.  The Modifier cells are read and parsed before the promoter loop
(lines 124-126): their failures abort the whole run whatever the promoter
columns hold.
-/

theorem processRows_error_append {amino : List (String × PyFloat)} {r : CsvRow}
    {e : TErr} (post : List CsvRow) :
    ∀ pre : List CsvRow, processRow amino r = .error e →
    (∀ r2 ∈ pre, ∃ l, processRow amino r2 = .ok l) →
    processRows amino (pre ++ r :: post) = .error e := by
  intro pre
  induction pre with
  | nil =>
    intro he _
    simp [processRows, he]
  | cons p rest ih =>
    intro he hok
    rcases hok p (by simp) with ⟨l, hl⟩
    have htail := ih he (fun r2 h2 => hok r2 (List.mem_cons_of_mem p h2))
    simp [processRows, hl, htail]

/-- C10: a CSV row missing the Modifier column, or whose Modifier cell does
not parse as an int, or missing the Modifier_AA column, makes processRow
abort with the corresponding error whatever the promoter columns hold; and
such an error in any row (all earlier rows succeeding) aborts the whole
generate_table run. -/
theorem c10_modifier_abort (amino : List (String × PyFloat)) (r : CsvRow)
    (mcell : String) (midx : Int) (shaderLines : List String) (pre post : List CsvRow)
    (param1T : List (Nat × Param1Entry)) (e : TErr) :
    (alookup "Modifier" r = none →
      processRow amino r = .error (.missingColumn "Modifier")) ∧
    (alookup "Modifier" r = some mcell → pyInt (pyStrip mcell) = none →
      processRow amino r = .error (.badModifierInt (pyStrip mcell))) ∧
    (alookup "Modifier" r = some mcell → pyInt (pyStrip mcell) = some midx →
      alookup "Modifier_AA" r = none →
      processRow amino r = .error (.missingColumn "Modifier_AA")) ∧
    (parseLoopRec shaderLines [] = .ok param1T →
      processRow (buildAmino (param1T.map Prod.snd)) r = .error e →
      (∀ r2 ∈ pre, ∃ l, processRow (buildAmino (param1T.map Prod.snd)) r2 = .ok l) →
      generate_table shaderLines (pre ++ r :: post) = .error e) := by
  refine ⟨?_, ?_, ?_, ?_⟩
  · intro h1
    simp [processRow, h1]
  · intro h1 h2
    simp [processRow, h1, h2]
  · intro h1 h2 h3
    simp [processRow, h1, h2, h3]
  · intro hp he hok
    have hrows := processRows_error_append post pre he hok
    simp [generate_table, hp, hrows]

/-- C10 witness: a Modifier cell "abc" aborts its row and the whole run,
and the two missing-column failures abort as well. -/
theorem c10_witness :
    processRow [] [] = .error (.missingColumn "Modifier") ∧
    processRow [] [("Modifier", "abc"), ("V_Valine", "Alpha Sensor")] =
      .error (.badModifierInt "abc") ∧
    processRow [] [("Modifier", "5")] = .error (.missingColumn "Modifier_AA") ∧
    generate_table xLines [[("Modifier", "abc"), ("V_Valine", "Alpha Sensor")]] =
      .error (.badModifierInt "abc") := by
  refine ⟨?_, ?_, ?_, ?_⟩
  · exact (c10_modifier_abort [] [] "" 0 [] [] [] [] (.parseError "")).1 rfl
  · exact ((c10_modifier_abort [] [("Modifier", "abc"), ("V_Valine", "Alpha Sensor")]
      "abc" 0 [] [] [] [] (.parseError "")).2.1 rfl rfl).trans rfl
  · exact (c10_modifier_abort [] [("Modifier", "5")] "5" 5 [] [] [] []
      (.parseError "")).2.2.1 rfl rfl rfl
  · exact (c10_modifier_abort (buildAmino ([(25, (⟨25, "E", "Energy Sensor", ⟨1, 1⟩⟩ : Param1Entry))].map Prod.snd))
      [("Modifier", "abc"), ("V_Valine", "Alpha Sensor")] "abc" 0 xLines [] []
      [(25, ⟨25, "E", "Energy Sensor", ⟨1, 1⟩⟩)] (.badModifierInt "abc")).2.2.2
      rfl rfl (by simp)

/-
C8 groundwork: takeWhile/dropWhile bookkeeping and digit membership.
-/

theorem tw_all {p : Char → Bool} : ∀ {d t : List Char}, (∀ c ∈ d, p c = true) →
    (∀ c, t.head? = some c → p c = false) →
    (d ++ t).takeWhile p = d ∧ (d ++ t).dropWhile p = t := by
  intro d
  induction d with
  | nil =>
    intro t _ ht
    cases t with
    | nil => exact ⟨rfl, rfl⟩
    | cons c r =>
      have hc : p c = false := ht c rfl
      simp [List.takeWhile_cons, List.dropWhile_cons, hc]
  | cons a d' ih =>
    intro t hd ht
    have ha : p a = true := hd a (by simp)
    have hrest := ih (fun c hc => hd c (by simp [hc])) ht
    simp [List.takeWhile_cons, List.dropWhile_cons, ha, hrest.1, hrest.2]

theorem dropWhile_head_false {p : Char → Bool} :
    ∀ {l r : List Char} {c : Char}, l.dropWhile p = c :: r → p c = false := by
  intro l
  induction l with
  | nil => intro r c h; simp at h
  | cons a t ih =>
    intro r c h
    by_cases ha : p a = true
    · rw [List.dropWhile_cons, if_pos ha] at h
      exact ih h
    · rw [List.dropWhile_cons, if_neg ha] at h
      cases h
      simpa using ha

theorem mem_dropWhile_of {p : Char → Bool} {c : Char} :
    ∀ {l : List Char}, c ∈ l → p c = false → c ∈ l.dropWhile p := by
  intro l
  induction l with
  | nil => intro h; simp at h
  | cons a t ih =>
    intro hm hc
    by_cases ha : p a = true
    · rw [List.dropWhile_cons, if_pos ha]
      rcases List.mem_cons.mp hm with he | ht
      · rw [he] at hc; rw [hc] at ha; cases ha
      · exact ih ht hc
    · rw [List.dropWhile_cons, if_neg ha]
      exact hm

theorem mem_stripL_iff {c : Char} {l : List Char} (hc : pyWS c = false) :
    c ∈ stripL l ↔ c ∈ l := by
  constructor
  · intro h
    unfold stripL at h
    have h1 := (List.dropWhile_sublist pyWS (l := (l.dropWhile pyWS).reverse)).subset
      (List.mem_reverse.mp h)
    have h2 := (List.dropWhile_sublist pyWS (l := l)).subset (List.mem_reverse.mp h1)
    exact h2
  · intro h
    unfold stripL
    rw [List.mem_reverse]
    apply mem_dropWhile_of _ hc
    rw [List.mem_reverse]
    exact mem_dropWhile_of h hc

theorem digit_not_ws {c : Char} (h : c.isDigit = true) : pyWS c = false := by
  have h1 : c ≠ ' ' := by rintro rfl; exact absurd h (by decide)
  have h2 : c ≠ '\t' := by rintro rfl; exact absurd h (by decide)
  have h3 : c ≠ '\n' := by rintro rfl; exact absurd h (by decide)
  have h4 : c ≠ '\r' := by rintro rfl; exact absurd h (by decide)
  have h5 : c ≠ '\x0b' := by rintro rfl; exact absurd h (by decide)
  have h6 : c ≠ '\x0c' := by rintro rfl; exact absurd h (by decide)
  simp [pyWS, h1, h2, h3, h4, h5, h6]

theorem exists_digit_of_takeWhile_ne {cs : List Char}
    (h : (cs.takeWhile Char.isDigit).isEmpty = false) : ∃ c ∈ cs, c.isDigit = true := by
  cases htw : cs.takeWhile Char.isDigit with
  | nil => rw [htw] at h; simp at h
  | cons c r =>
    refine ⟨c, ?_, ?_⟩
    · exact (List.takeWhile_sublist Char.isDigit).subset (by rw [htw]; simp)
    · exact List.mem_takeWhile_imp (by rw [htw]; simp)

theorem matchMantissa_digit {cs : List Char} {x : PyFloat × List Char}
    (h : matchMantissa cs = some x) : ∃ c ∈ cs, c.isDigit = true := by
  by_cases hd1 : (cs.takeWhile Char.isDigit).isEmpty = true
  · simp only [matchMantissa] at h
    split at h
    · rename_i r2 heq
      by_cases hd2 : (r2.takeWhile Char.isDigit).isEmpty = true
      · rw [if_pos hd2, if_pos hd1] at h
        cases h
      · have hd2f : (r2.takeWhile Char.isDigit).isEmpty = false := by simpa using hd2
        rcases exists_digit_of_takeWhile_ne hd2f with ⟨c, hc, hcd⟩
        have hmem : c ∈ cs := by
          have h1 : c ∈ cs.dropWhile Char.isDigit := by rw [heq]; simp [hc]
          exact (List.dropWhile_sublist Char.isDigit).subset h1
        exact ⟨c, hmem, hcd⟩
    · rw [if_pos hd1] at h
      cases h
  · exact exists_digit_of_takeWhile_ne (by simpa using hd1)

theorem matchAt_digit {cs : List Char} {x : PyFloat × List Char}
    (h : matchAt cs = some x) : ∃ c ∈ cs, c.isDigit = true := by
  unfold matchAt at h
  split at h
  · split at h
    · rename_i m rest hm
      rcases matchMantissa_digit hm with ⟨c, hc, hcd⟩
      exact ⟨c, by simp [hc], hcd⟩
    · cases h
  · split at h
    · rename_i m rest hm
      rcases matchMantissa_digit hm with ⟨c, hc, hcd⟩
      exact ⟨c, by simp [hc], hcd⟩
    · cases h
  · split at h
    · rename_i m rest hm
      exact matchMantissa_digit hm
    · cases h

theorem matchMantissa_isSome_of_digit {c : Char} {t : List Char} (h : c.isDigit = true) :
    (matchMantissa (c :: t)).isSome = true := by
  have h1 : (c :: t).takeWhile Char.isDigit = c :: t.takeWhile Char.isDigit := by
    simp [List.takeWhile_cons, h]
  have h1e : ((c :: t).takeWhile Char.isDigit).isEmpty = false := by rw [h1]; rfl
  unfold matchMantissa
  split
  · split
    · rw [if_neg (by simp [h1e])]
      rfl
    · rfl
  · rw [if_neg (by simp [h1e])]
    rfl

theorem matchAt_isSome_of_digit {c : Char} {t : List Char} (h : c.isDigit = true) :
    (matchAt (c :: t)).isSome = true := by
  have hp : c ≠ '+' := by rintro rfl; exact absurd h (by decide)
  have hm : c ≠ '-' := by rintro rfl; exact absurd h (by decide)
  unfold matchAt
  split
  · rename_i r heq
    exact absurd (List.cons.inj heq).1 hp
  · rename_i r heq
    exact absurd (List.cons.inj heq).1 hm
  · cases hmm : matchMantissa (c :: t) with
    | none =>
      have h2 := matchMantissa_isSome_of_digit (t := t) h
      rw [hmm] at h2
      cases h2
    | some x =>
      rcases x with ⟨m, rest⟩
      simp [hmm]

theorem searchFloat_isSome_iff : ∀ {cs : List Char},
    (searchFloat cs).isSome = true ↔ ∃ c ∈ cs, c.isDigit = true := by
  intro cs
  induction cs with
  | nil => simp [searchFloat]
  | cons c rest ih =>
    constructor
    · intro h
      cases hma : matchAt (c :: rest) with
      | some x =>
        exact matchAt_digit hma
      | none =>
        simp only [searchFloat, hma] at h
        rcases ih.mp h with ⟨d, hd, hdd⟩
        exact ⟨d, by simp [hd], hdd⟩
    · rintro ⟨d, hd, hdd⟩
      rcases List.mem_cons.mp hd with he | ht
      · subst he
        have h2 := matchAt_isSome_of_digit (t := rest) hdd
        cases hma : matchAt (d :: rest) with
        | none => rw [hma] at h2; cases h2
        | some x =>
          rcases x with ⟨v, r⟩
          simp [searchFloat, hma]
      · cases hma : matchAt (c :: rest) with
        | none =>
          simp only [searchFloat, hma]
          exact ih.mpr ⟨d, ht, hdd⟩
        | some x =>
          rcases x with ⟨v, r⟩
          simp [searchFloat, hma]

theorem specUnsigned_digit {cs : List Char} {v : PyFloat}
    (h : specUnsigned cs = some v) : ∃ c ∈ cs, c.isDigit = true := by
  by_cases hd1 : (cs.takeWhile Char.isDigit).isEmpty = true
  · simp only [specUnsigned] at h
    split at h
    · rename_i r2 heq
      by_cases hd2 : (r2.takeWhile Char.isDigit).isEmpty = true
      · rw [if_pos hd2] at h
        cases h
      · have hd2f : (r2.takeWhile Char.isDigit).isEmpty = false := by simpa using hd2
        rcases exists_digit_of_takeWhile_ne hd2f with ⟨c, hc, hcd⟩
        have hmem : c ∈ cs := by
          have h1 : c ∈ cs.dropWhile Char.isDigit := by rw [heq]; simp [hc]
          exact (List.dropWhile_sublist Char.isDigit).subset h1
        exact ⟨c, hmem, hcd⟩
    · rw [if_pos hd1] at h
      cases h
  · exact exists_digit_of_takeWhile_ne (by simpa using hd1)

theorem specParse_digit {cs : List Char} {v : PyFloat}
    (h : specParse cs = some v) : ∃ c ∈ cs, c.isDigit = true := by
  unfold specParse at h
  split at h
  · rcases specUnsigned_digit h with ⟨c, hc, hcd⟩
    exact ⟨c, by simp [hc], hcd⟩
  · rcases Option.map_eq_some'.mp h with ⟨w, hw, _⟩
    rcases specUnsigned_digit hw with ⟨c, hc, hcd⟩
    exact ⟨c, by simp [hc], hcd⟩
  · exact specUnsigned_digit h

theorem specParse_singleton_digit {c : Char} (h : c.isDigit = true) :
    (specParse [c]).isSome = true := by
  have hp : c ≠ '+' := by rintro rfl; exact absurd h (by decide)
  have hm : c ≠ '-' := by rintro rfl; exact absurd h (by decide)
  have h1 : ([c] : List Char).takeWhile Char.isDigit = [c] := by
    simp [List.takeWhile_cons, h]
  have h2 : ([c] : List Char).dropWhile Char.isDigit = [] := by
    simp [List.dropWhile_cons, h]
  unfold specParse
  split
  · rename_i r heq
    exact absurd (List.cons.inj heq).1 hp
  · rename_i r heq
    exact absurd (List.cons.inj heq).1 hm
  · unfold specUnsigned
    rw [h1, h2]
    simp [specExpTail]

/-- Part of the Float Extractor claim: the regex search succeeds exactly
when some substring of the fragment is a spec-side numeric literal. -/
theorem searchFloat_iff_literal (s : List Char) :
    (searchFloat s).isSome = true ↔
      ∃ l1 l2 l3, s = l1 ++ l2 ++ l3 ∧ (specParse l2).isSome = true := by
  rw [searchFloat_isSome_iff]
  constructor
  · rintro ⟨c, hc, hcd⟩
    rcases List.append_of_mem hc with ⟨t1, t2, rfl⟩
    exact ⟨t1, [c], t2, by simp, specParse_singleton_digit hcd⟩
  · rintro ⟨l1, l2, l3, rfl, hl2⟩
    rcases Option.isSome_iff_exists.mp hl2 with ⟨v, hv⟩
    rcases specParse_digit hv with ⟨c, hc, hcd⟩
    exact ⟨c, by simp [hc], hcd⟩

/-
C8 value side: a spec-side literal followed by safe punctuation is matched
exactly, with its exact value, by the regex model.
-/

theorem safeAfter_facts {post : List Char} (h : safeAfterHead post = true) :
    ∀ c, post.head? = some c →
      c.isDigit = false ∧ c ≠ '.' ∧ c ≠ 'e' ∧ c ≠ 'E' := by
  intro c hc
  cases post with
  | nil => simp at hc
  | cons a t =>
    have ha : a = c := by simpa using hc
    subst ha
    simp only [safeAfterHead, Bool.not_eq_true'] at h
    simp only [Bool.or_eq_false_iff, decide_eq_false_iff_not] at h
    exact ⟨h.1.1.1, h.1.1.2, h.1.2, h.2⟩

theorem headNot_append {p : Char → Bool} {r3 post : List Char}
    (h1 : ∀ c, r3.head? = some c → p c = false)
    (h2 : ∀ c, post.head? = some c → p c = false) :
    ∀ c, (r3 ++ post).head? = some c → p c = false := by
  intro c hc
  cases r3 with
  | nil => exact h2 c (by simpa using hc)
  | cons a t => exact h1 c (by simpa using hc)

theorem specExpDigits_match {m v : PyFloat} {neg : Bool} {t post orig : List Char}
    (h : specExpDigits m neg t = some v) (hsafe : safeAfterHead post = true) :
    matchExpDigits m orig neg (t ++ post) = (v, post) := by
  unfold specExpDigits at h
  by_cases hcond : ((t.takeWhile Char.isDigit).isEmpty ||
      !(t.dropWhile Char.isDigit).isEmpty) = true
  · rw [if_pos hcond] at h
    cases h
  · rw [if_neg hcond] at h
    have hv : v = pfApplyExp m neg (digitsToNat (t.takeWhile Char.isDigit)) := by
      cases h
      rfl
    simp only [Bool.or_eq_true, not_or, Bool.not_eq_true] at hcond
    have hd3 : (t.takeWhile Char.isDigit).isEmpty = false := hcond.1
    have hdrop : t.dropWhile Char.isDigit = [] := by
      have h3 : (t.dropWhile Char.isDigit).isEmpty = true := by simpa using hcond.2
      exact List.isEmpty_iff.mp h3
    have ht : t.takeWhile Char.isDigit = t := by
      have h4 := List.takeWhile_append_dropWhile Char.isDigit t
      rw [hdrop] at h4
      simpa using h4
    have htw := tw_all (p := Char.isDigit) (d := t) (t := post)
      (fun c hc => List.mem_takeWhile_imp (ht ▸ hc))
      (fun c hc => (safeAfter_facts hsafe c hc).1)
    have hte : t.isEmpty = false := ht ▸ hd3
    rw [ht] at hv
    unfold matchExpDigits
    rw [htw.1, htw.2, if_neg (by simp [hte]), hv]

theorem specExpTail_exp {m v : PyFloat} : ∀ {cs post : List Char},
    specExpTail m cs = some v → safeAfterHead post = true →
    matchExpPart m (cs ++ post) = (v, post) := by
  intro cs post h hsafe
  cases cs with
  | nil =>
    have hv : m = v := by
      have h2 : (some m : Option PyFloat) = some v := by simpa [specExpTail] using h
      exact Option.some.inj h2
    subst hv
    cases post with
    | nil => rfl
    | cons a t =>
      obtain ⟨hd, hdot, he, hE⟩ := safeAfter_facts hsafe a rfl
      show matchExpPart m (a :: t) = (m, a :: t)
      unfold matchExpPart
      split
      · rename_i r4 heq
        exact absurd (List.cons.inj heq).1 he
      · rename_i r4 heq
        exact absurd (List.cons.inj heq).1 hE
      · rfl
  | cons e r =>
    simp only [specExpTail] at h
    by_cases hee : (e = 'e' || e = 'E') = true
    · rw [if_pos hee] at h
      have hgoal : (match r ++ post with
          | '+' :: t => matchExpDigits m ((e :: r) ++ post) false t
          | '-' :: t => matchExpDigits m ((e :: r) ++ post) true t
          | t => matchExpDigits m ((e :: r) ++ post) false t) = (v, post) := by
        split
        · rename_i t heq
          -- r ++ post = '+' :: t; r cannot be empty (specExpDigits on the empty
          -- sign case would need digits inside r), so r = '+' :: t0
          cases r with
          | nil =>
            -- h : specExpDigits m false [] = some v, impossible
            simp [specExpDigits] at h
          | cons c r0 =>
            obtain ⟨hc, ht⟩ : c = '+' ∧ r0 ++ post = t := by
              have h5 : c :: (r0 ++ post) = '+' :: t := by simpa using heq
              exact ⟨(List.cons.inj h5).1, (List.cons.inj h5).2⟩
            subst hc
            rw [← ht]
            have h2 : specExpDigits m false r0 = some v := by
              simpa using h
            exact specExpDigits_match h2 hsafe
        · rename_i t heq
          cases r with
          | nil => simp [specExpDigits] at h
          | cons c r0 =>
            obtain ⟨hc, ht⟩ : c = '-' ∧ r0 ++ post = t := by
              have h5 : c :: (r0 ++ post) = '-' :: t := by simpa using heq
              exact ⟨(List.cons.inj h5).1, (List.cons.inj h5).2⟩
            subst hc
            rw [← ht]
            have h2 : specExpDigits m true r0 = some v := by
              simpa using h
            exact specExpDigits_match h2 hsafe
        · rename_i hne1 hne2
          cases r with
          | nil => simp [specExpDigits] at h
          | cons c r0 =>
            have hcp : c ≠ '+' := by
              intro hc
              subst hc
              exact hne1 (r0 ++ post) rfl
            have hcm : c ≠ '-' := by
              intro hc
              subst hc
              exact hne2 (r0 ++ post) rfl
            have h2 : specExpDigits m false (c :: r0) = some v := by
              have : (match (c :: r0 : List Char) with
                  | '+' :: t => specExpDigits m false t
                  | '-' :: t => specExpDigits m true t
                  | t => specExpDigits m false t) = some v := h
              rw [show (match (c :: r0 : List Char) with
                  | '+' :: t => specExpDigits m false t
                  | '-' :: t => specExpDigits m true t
                  | t => specExpDigits m false t) = specExpDigits m false (c :: r0)
                from ?_] at this
              · exact this
              · split
                · rename_i t heq2
                  exact absurd (List.cons.inj heq2).1 hcp
                · rename_i t heq2
                  exact absurd (List.cons.inj heq2).1 hcm
                · rfl
            exact specExpDigits_match h2 hsafe
      rcases (show e = 'e' ∨ e = 'E' by simpa using hee) with he | hE
      · subst he
        show matchExpPart m ('e' :: (r ++ post)) = (v, post)
        unfold matchExpPart
        exact hgoal
      · subst hE
        show matchExpPart m ('E' :: (r ++ post)) = (v, post)
        unfold matchExpPart
        exact hgoal
    · rw [if_neg hee] at h
      cases h

theorem specUnsigned_append {cs post : List Char} {v : PyFloat}
    (h : specUnsigned cs = some v) (hsafe : safeAfterHead post = true) :
    ∃ m rest, matchMantissa (cs ++ post) = some (m, rest) ∧
      matchExpPart m rest = (v, post) := by
  have hcs := List.takeWhile_append_dropWhile Char.isDigit cs
  have hd1digits : ∀ c ∈ cs.takeWhile Char.isDigit, Char.isDigit c = true :=
    fun c hc => List.mem_takeWhile_imp hc
  simp only [specUnsigned] at h
  split at h
  · rename_i r2 heq
    by_cases hd2 : (r2.takeWhile Char.isDigit).isEmpty = true
    · rw [if_pos hd2] at h
      cases h
    · rw [if_neg hd2] at h
      have hsplit : cs ++ post = cs.takeWhile Char.isDigit ++ (('.' :: r2) ++ post) := by
        rw [← heq, ← List.append_assoc, hcs]
      have htw := tw_all (d := cs.takeWhile Char.isDigit) (t := ('.' :: r2) ++ post)
        hd1digits (fun c hc => by
          have hc2 : '.' = c := by simpa using hc
          subst hc2
          decide)
      have htw1 : (cs ++ post).takeWhile Char.isDigit = cs.takeWhile Char.isDigit := by
        rw [hsplit]; exact htw.1
      have hdw : (cs ++ post).dropWhile Char.isDigit = '.' :: (r2 ++ post) := by
        rw [hsplit]; exact htw.2
      have hr2 := List.takeWhile_append_dropWhile Char.isDigit r2
      have hsplit2 : r2 ++ post =
          r2.takeWhile Char.isDigit ++ (r2.dropWhile Char.isDigit ++ post) := by
        rw [← List.append_assoc, hr2]
      have htwB := tw_all (d := r2.takeWhile Char.isDigit)
        (t := r2.dropWhile Char.isDigit ++ post)
        (fun c hc => List.mem_takeWhile_imp hc)
        (headNot_append (fun c hc => by
            cases hdwr : r2.dropWhile Char.isDigit with
            | nil => rw [hdwr] at hc; simp at hc
            | cons a t =>
              rw [hdwr] at hc
              have ha : a = c := by simpa using hc
              exact ha ▸ dropWhile_head_false hdwr)
          (fun c hc => (safeAfter_facts hsafe c hc).1))
      have htwB1 : (r2 ++ post).takeWhile Char.isDigit = r2.takeWhile Char.isDigit := by
        rw [hsplit2]; exact htwB.1
      have htwB2 : (r2 ++ post).dropWhile Char.isDigit =
          r2.dropWhile Char.isDigit ++ post := by
        rw [hsplit2]; exact htwB.2
      refine ⟨pfOfDigits (cs.takeWhile Char.isDigit) (r2.takeWhile Char.isDigit),
        r2.dropWhile Char.isDigit ++ post, ?_, specExpTail_exp h hsafe⟩
      unfold matchMantissa
      rw [hdw]
      show (if ((r2 ++ post).takeWhile Char.isDigit).isEmpty = true then
          if ((cs ++ post).takeWhile Char.isDigit).isEmpty = true then none
          else some (pfOfDigits ((cs ++ post).takeWhile Char.isDigit) [], '.' :: (r2 ++ post))
        else some (pfOfDigits ((cs ++ post).takeWhile Char.isDigit)
            ((r2 ++ post).takeWhile Char.isDigit),
          (r2 ++ post).dropWhile Char.isDigit)) = _
      rw [htwB1, htw1, htwB2, if_neg (by simp [hd2] : ¬ ((r2.takeWhile Char.isDigit).isEmpty = true))]
  · rename_i r1 hnodot
    -- the catch-all branch of specUnsigned: the dropped rest is not
    -- dot-headed, so the regex mantissa also takes the no-dot branch
    by_cases hd1 : (cs.takeWhile Char.isDigit).isEmpty = true
    · rw [if_pos hd1] at h
      cases h
    · rw [if_neg hd1] at h
      have hsplit : cs ++ post =
          cs.takeWhile Char.isDigit ++ (cs.dropWhile Char.isDigit ++ post) := by
        rw [← List.append_assoc, hcs]
      have htw := tw_all (d := cs.takeWhile Char.isDigit)
        (t := cs.dropWhile Char.isDigit ++ post)
        hd1digits
        (headNot_append (fun c hc => by
            cases hdwr : cs.dropWhile Char.isDigit with
            | nil => rw [hdwr] at hc; simp at hc
            | cons a t =>
              rw [hdwr] at hc
              have ha : a = c := by simpa using hc
              exact ha ▸ dropWhile_head_false hdwr)
          (fun c hc => (safeAfter_facts hsafe c hc).1))
      have htw1 : (cs ++ post).takeWhile Char.isDigit = cs.takeWhile Char.isDigit := by
        rw [hsplit]; exact htw.1
      have hdw : (cs ++ post).dropWhile Char.isDigit =
          cs.dropWhile Char.isDigit ++ post := by
        rw [hsplit]; exact htw.2
      refine ⟨pfOfDigits (cs.takeWhile Char.isDigit) [],
        cs.dropWhile Char.isDigit ++ post, ?_, specExpTail_exp h hsafe⟩
      unfold matchMantissa
      rw [hdw]
      split
      · rename_i r2 heq
        -- the dropped rest followed by post cannot start with a dot
        cases hdwr : cs.dropWhile Char.isDigit with
        | nil =>
          rw [hdwr] at heq
          have hpost : post.head? = some '.' := by
            rw [show post = '.' :: r2 by simpa using heq]
            rfl
          obtain ⟨-, hdot, -, -⟩ := safeAfter_facts hsafe '.' hpost
          exact (hdot rfl).elim
        | cons a t =>
          rw [hdwr] at heq
          have ha : a = '.' := (List.cons.inj heq).1
          exact (hnodot t (by rw [hdwr, ha])).elim
      · rw [htw1, if_neg (by simp [hd1] :
          ¬ ((cs.takeWhile Char.isDigit).isEmpty = true))]

theorem pfApplyExp_neg (m : PyFloat) (neg : Bool) (e : Nat) :
    pfApplyExp (pfNeg m) neg e = pfNeg (pfApplyExp m neg e) := by
  cases neg <;> simp [pfApplyExp, pfNeg, Int.neg_mul]

theorem matchExpDigits_neg (m : PyFloat) (orig : List Char) (neg : Bool) (t : List Char) :
    matchExpDigits (pfNeg m) orig neg t =
      (pfNeg (matchExpDigits m orig neg t).1, (matchExpDigits m orig neg t).2) := by
  unfold matchExpDigits
  split
  · rfl
  · rw [pfApplyExp_neg]

theorem matchExpPart_neg (m : PyFloat) (rest : List Char) :
    matchExpPart (pfNeg m) rest =
      (pfNeg (matchExpPart m rest).1, (matchExpPart m rest).2) := by
  unfold matchExpPart
  split
  · split <;> rw [matchExpDigits_neg]
  · split <;> rw [matchExpDigits_neg]
  · rfl

theorem specParse_matchAt {cs post : List Char} {v : PyFloat}
    (h : specParse cs = some v) (hsafe : safeAfterHead post = true) :
    matchAt (cs ++ post) = some (v, post) := by
  unfold specParse at h
  split at h
  · rename_i r
    rcases specUnsigned_append h hsafe with ⟨m, rest, hmm, hexp⟩
    have h0 : matchAt ('+' :: (r ++ post)) =
        (match matchMantissa (r ++ post) with
          | some (m, rest) => some (matchExpPart m rest)
          | none => none) := rfl
    rw [show ('+' :: r) ++ post = '+' :: (r ++ post) from rfl, h0, hmm]
    show some (matchExpPart m rest) = some (v, post)
    rw [hexp]
  · rename_i r
    rcases Option.map_eq_some'.mp h with ⟨w, hw, hv⟩
    rcases specUnsigned_append hw hsafe with ⟨m, rest, hmm, hexp⟩
    have h0 : matchAt ('-' :: (r ++ post)) =
        (match matchMantissa (r ++ post) with
          | some (m, rest) => some (matchExpPart (pfNeg m) rest)
          | none => none) := rfl
    rw [show ('-' :: r) ++ post = '-' :: (r ++ post) from rfl, h0, hmm]
    show some (matchExpPart (pfNeg m) rest) = some (v, post)
    rw [matchExpPart_neg, hexp, ← hv]
  · rename_i hne1 hne2
    rcases specUnsigned_append h hsafe with ⟨m, rest, hmm, hexp⟩
    cases cs with
    | nil =>
      have hnone : specUnsigned ([] : List Char) = none := rfl
      rw [hnone] at h
      cases h
    | cons a t =>
      have hap : a ≠ '+' := fun hc => hne1 t (by rw [hc])
      have ham : a ≠ '-' := fun hc => hne2 t (by rw [hc])
      show matchAt (a :: (t ++ post)) = some (v, post)
      unfold matchAt
      split
      · rename_i r heq
        exact absurd (List.cons.inj heq).1 hap
      · rename_i r heq
        exact absurd (List.cons.inj heq).1 ham
      · rw [show a :: (t ++ post) = (a :: t) ++ post from rfl, hmm]
        show some (matchExpPart m rest) = some (v, post)
        rw [hexp]

theorem safeBefore_matchAt {c : Char} {t : List Char} (h : safeBefore c = true) :
    matchAt (c :: t) = none := by
  simp only [safeBefore, Bool.not_eq_true'] at h
  simp only [Bool.or_eq_false_iff, decide_eq_false_iff_not] at h
  obtain ⟨⟨⟨hd, hdot⟩, hp⟩, hm⟩ := h
  have h1 : (c :: t).takeWhile Char.isDigit = [] := by
    simp [List.takeWhile_cons, hd]
  have h2 : (c :: t).dropWhile Char.isDigit = c :: t := by
    simp [List.dropWhile_cons, hd]
  have hmm : matchMantissa (c :: t) = none := by
    unfold matchMantissa
    rw [h2]
    split
    · rename_i r2 heq
      exact absurd (List.cons.inj heq).1 hdot
    · rw [h1]
      rfl
  unfold matchAt
  split
  · rename_i r heq
    exact absurd (List.cons.inj heq).1 hp
  · rename_i r heq
    exact absurd (List.cons.inj heq).1 hm
  · rw [hmm]

theorem searchFloat_append_safe : ∀ {pre rest : List Char},
    (∀ c ∈ pre, safeBefore c = true) →
    searchFloat (pre ++ rest) = searchFloat rest := by
  intro pre
  induction pre with
  | nil => intro rest _; rfl
  | cons c pre' ih =>
    intro rest hsafe
    have hc : safeBefore c = true := hsafe c (by simp)
    have hna := safeBefore_matchAt (t := pre' ++ rest) hc
    have h0 : searchFloat (c :: (pre' ++ rest)) =
        (match matchAt (c :: (pre' ++ rest)) with
          | some (v, _) => some v
          | none => searchFloat (pre' ++ rest)) := rfl
    show searchFloat (c :: (pre' ++ rest)) = searchFloat rest
    rw [h0, hna]
    show searchFloat (pre' ++ rest) = searchFloat rest
    exact ih (fun d hd => hsafe d (by simp [hd]))

/-- Value side of the Float Extractor claim: a spec-side literal surrounded
by punctuation that cannot start or extend a match is found with its exact
value. -/
theorem searchFloat_value {pre mid post : List Char} {v : PyFloat}
    (h : specParse mid = some v) (hpre : ∀ c ∈ pre, safeBefore c = true)
    (hpost : safeAfterHead post = true) :
    searchFloat (pre ++ mid ++ post) = some v := by
  rcases specParse_digit h with ⟨c0, hc0, -⟩
  cases mid with
  | nil => simp at hc0
  | cons a t =>
    rw [List.append_assoc, searchFloat_append_safe hpre]
    have hma : matchAt ((a :: t) ++ post) = some (v, post) := specParse_matchAt h hpost
    show searchFloat (a :: (t ++ post)) = some v
    unfold searchFloat
    rw [show (a :: (t ++ post) : List Char) = (a :: t) ++ post from rfl, hma]

/-- C8: the Float Extractor (strip, regex search, ValueError on no match)
fails exactly when no substring of the fragment is a numeric literal
(optionally signed, optionally with a decimal point, optionally
exponential); its error always names the stripped fragment; and a literal
surrounded by punctuation that cannot start or extend a match — such as a
trailing comma or parenthesis — is extracted with exactly its value. -/
theorem c8_float_extractor (s pre mid post : List Char) (v : PyFloat) :
    ((∃ e, floatExtract s = .error e) ↔
      ¬ ∃ l1 l2 l3, s = l1 ++ l2 ++ l3 ∧ (specParse l2).isSome = true) ∧
    (∀ e, floatExtract s = .error e → e = .parseError (String.mk (stripL s))) ∧
    (specParse mid = some v → (∀ c ∈ pre, safeBefore c = true) →
      safeAfterHead post = true → searchFloat (pre ++ mid ++ post) = some v) := by
  refine ⟨?_, ?_, ?_⟩
  · have hiff1 : (∃ e, floatExtract s = .error e) ↔ searchFloat (stripL s) = none := by
      cases hs : searchFloat (stripL s) with
      | some w => simp [floatExtract, hs]
      | none => simp [floatExtract, hs]
    have hiff2 : searchFloat (stripL s) = none ↔
        ¬ ∃ c ∈ stripL s, c.isDigit = true := by
      rw [← searchFloat_isSome_iff]
      constructor
      · intro h hcon
        rw [h] at hcon
        cases hcon
      · intro h
        cases hs : searchFloat (stripL s) with
        | none => rfl
        | some w => exact absurd (by simp [hs]) h
    have hiff3 : (∃ c ∈ stripL s, c.isDigit = true) ↔ (∃ c ∈ s, c.isDigit = true) := by
      constructor
      · rintro ⟨c, hc, hd⟩
        exact ⟨c, (mem_stripL_iff (digit_not_ws hd)).mp hc, hd⟩
      · rintro ⟨c, hc, hd⟩
        exact ⟨c, (mem_stripL_iff (digit_not_ws hd)).mpr hc, hd⟩
    have hiff4 : (∃ c ∈ s, c.isDigit = true) ↔
        ∃ l1 l2 l3, s = l1 ++ l2 ++ l3 ∧ (specParse l2).isSome = true := by
      rw [← searchFloat_isSome_iff]
      exact searchFloat_iff_literal s
    exact hiff1.trans (hiff2.trans (not_congr (hiff3.trans hiff4)))
  · intro e h
    cases hs : searchFloat (stripL s) with
    | some w => simp [floatExtract, hs] at h
    | none =>
      simp only [floatExtract, hs, Except.error.injEq] at h
      exact h.symm
  · intro h1 h2 h3
    exact searchFloat_value h1 h2 h3

/-- C8 witness: "-0.23" surrounded by a parenthesis and a trailing comma is
extracted as exactly -0.23, and a digit-free fragment fails with the
ParseError naming the stripped fragment. -/
theorem c8_witness :
    searchFloat ("(".data ++ "-0.23".data ++ ",".data) = some ⟨-23, 100⟩ ∧
    floatExtract " abc) ".data = .error (.parseError "abc)") :=
  ⟨(c8_float_extractor [] "(".data "-0.23".data ",".data ⟨-23, 100⟩).2.2 rfl
    (by decide) (by decide), rfl⟩

end Rib
